import Mathlib

/-!
Module image8bit: a shallow embedding of `src/image8bit.c`

The C module stores an 8-bit grey-level image as a `struct image` with fields
`width`, `height`, `maxval` and a row-major pixel array.  Here the structure is a
Lean record, the pixel array is a `List Nat`, C `int`s are unbounded `Int`s
(image dimensions are assumed to stay far below `2^31`), and every `assert` of
the source, as well as every out-of-range array access, makes the embedded
function return `none`.  Memory allocation is assumed to succeed, and the
instrumentation counters (`PIXMEM`, `InstrCount`) are not modelled.
-/

namespace Image8bit

/-! ## Data model -/

/-- Maximum value that can be stored in a pixel (`const uint8 PixMax = 255`). -/
def PixMax : Nat := 255

/-- Internal structure for storing 8-bit graymap images (`struct image`). -/
structure Image where
  width : Int
  height : Int
  maxval : Int
  pixel : List Nat
deriving DecidableEq

/-- Data-model invariant of a live image: non-negative dimensions, a maxval in
`1..255`, and a pixel array of exactly `width*height` samples. -/
def Image.WF (img : Image) : Prop :=
  0 ≤ img.width ∧ 0 ≤ img.height ∧
  (0 < img.maxval ∧ img.maxval ≤ 255) ∧
  (img.pixel.length : Int) = img.width * img.height

/-! ## Loop combinators -/

/-- Runs `body i`, `body (i+1)`, ... for `n` iterations, threading the state;
a failing iteration aborts the whole loop. -/
def forUp {σ : Type} (body : Int → σ → Option σ) : Nat → Int → σ → Option σ
  | 0, _, s => some s
  | n + 1, i, s => (body i s).bind (forUp body n (i + 1))

/-- The loop `for (int i = lo; i < hi; ++i) body`. -/
def forLt {σ : Type} (lo hi : Int) (body : Int → σ → Option σ) (s : σ) : Option σ :=
  forUp body (hi - lo).toNat lo s

/-- The loop `for (int i = lo; i <= hi; ++i) body`. -/
def forLe {σ : Type} (lo hi : Int) (body : Int → σ → Option σ) (s : σ) : Option σ :=
  forUp body (hi + 1 - lo).toNat lo s

/-- A loop whose body may `return` from the enclosing function: `body i` is
`none` when an assertion fails, `some (some r)` when the function returns `r`,
and `some none` when the loop goes on to the next iteration. -/
def searchUp {ρ : Type} (body : Int → Option (Option ρ)) : Nat → Int → Option (Option ρ)
  | 0, _ => some none
  | n + 1, i =>
    match body i with
    | none => none
    | some (some r) => some (some r)
    | some none => searchUp body n (i + 1)

/-- The loop `for (int i = lo; i < hi; ++i) body` with early `return`. -/
def searchLt {ρ : Type} (lo hi : Int) (body : Int → Option (Option ρ)) : Option (Option ρ) :=
  searchUp body (hi - lo).toNat lo

/-- The loop `for (int i = lo; i <= hi; ++i) body` with early `return`. -/
def searchLe {ρ : Type} (lo hi : Int) (body : Int → Option (Option ρ)) : Option (Option ρ) :=
  searchUp body (hi + 1 - lo).toNat lo

/-! ## Image management -/

/-- Function `ImageCreate`: a new black image.  The three assertions of the source are
checked; allocation is assumed to succeed. -/
def ImageCreate (width height : Int) (maxval : Int) : Option Image :=
  if 0 ≤ width ∧ 0 ≤ height ∧ (0 < maxval ∧ maxval ≤ (PixMax : Int)) then
    some { width := width, height := height, maxval := maxval,
           pixel := List.replicate (width * height).toNat 0 }
  else none

/-- Function `ImageValidPos`: is pixel position `(x,y)` inside `img`? -/
def ImageValidPos (img : Image) (x y : Int) : Bool :=
  (decide (0 ≤ x) && decide (x < img.width)) && (decide (0 ≤ y) && decide (y < img.height))

/-- Function `ImageValidRect`: is the rectangular area `(x,y,w,h)` completely inside `img`? -/
def ImageValidRect (img : Image) (x y w h : Int) : Bool :=
  decide (x ≥ 0) && decide (y ≥ 0) && decide (x + w ≤ img.width) && decide (y + h ≤ img.height)

/-- Function `G`: transforms `(x, y)` coordinates into the linear pixel index, asserting
`0 <= index < width*height`. -/
def G (img : Image) (x y : Int) : Option Int :=
  let index := y * img.width + x
  if 0 ≤ index ∧ index < img.width * img.height then some index else none

/-- Function `ImageGetPixel`: the pixel (level) at position `(x,y)`. -/
def ImageGetPixel (img : Image) (x y : Int) : Option Nat :=
  if ImageValidPos img x y then
    (G img x y).bind fun i => img.pixel[i.toNat]?
  else none

/-- Function `ImageSetPixel`: set the pixel at position `(x,y)` to the new level. -/
def ImageSetPixel (img : Image) (x y : Int) (level : Nat) : Option Image :=
  if ImageValidPos img x y then
    (G img x y).bind fun i =>
      if i.toNat < img.pixel.length then
        some { img with pixel := img.pixel.set i.toNat level }
      else none
  else none

/-! ## Pixel statistics and in-place pixel transformations -/

/-- Function `ImageStats`: the minimum and maximum gray levels of the image.
The result is the pair of the final values of `*min` and `*max`; the read of
`pixel[0]` fails on an image with an empty pixel array. -/
def ImageStats (img : Image) : Option (Nat × Nat) := do
  let first ← img.pixel[0]?
  forLt 1 (img.width * img.height) (fun i (mm : Nat × Nat) => do
    let p ← img.pixel[i.toNat]?
    if p < mm.1 then some (p, mm.2)
    else if p > mm.2 then some (mm.1, p)
    else some mm) (first, first)

/-- Function `ImageNegative`: replaces each sample `v` by `PixMax - v`, converted
to `uint8` (in place: the result is the new content of `img`). -/
def ImageNegative (img : Image) : Option Image :=
  forLt 0 (img.width * img.height) (fun i (im : Image) => do
    let v ← im.pixel[i.toNat]?
    let level : Int := (PixMax : Int) - (v : Int)
    if i.toNat < im.pixel.length then
      some { im with pixel := im.pixel.set i.toNat (level % 256).toNat }
    else none) img

/-- Function `ImageThreshold`: replaces each sample below `thr` by 0 and every
other sample by `maxval`, converted to `uint8` (in place: the result is the new
content of `img`). -/
def ImageThreshold (img : Image) (thr : Nat) : Option Image :=
  forLt 0 (img.width * img.height) (fun i (im : Image) => do
    let v ← im.pixel[i.toNat]?
    let level : Int := if v < thr then 0 else im.maxval
    if i.toNat < im.pixel.length then
      some { im with pixel := im.pixel.set i.toNat (level % 256).toNat }
    else none) img

/-! ## Geometric transformations -/

/-- Function `ImageRotate`: rotation by 90 degrees anti-clockwise into a new image. -/
def ImageRotate (img : Image) : Option Image := do
  let rotatedImg ← ImageCreate img.height img.width (img.maxval % 256)
  forLt 0 img.height (fun y r =>
    forLt 0 img.width (fun x r => do
      let rotatedX := y
      let rotatedY := img.width - 1 - x
      let v ← ImageGetPixel img x y
      ImageSetPixel r rotatedX rotatedY v) r) rotatedImg

/-- Function `ImageMirror`: left-right flip into a new image. -/
def ImageMirror (img : Image) : Option Image := do
  let mirroredImg ← ImageCreate img.width img.height (img.maxval % 256)
  forLt 0 img.height (fun y r =>
    forLt 0 img.width (fun x r => do
      let mirroredX := img.width - 1 - x
      let v ← ImageGetPixel img x y
      ImageSetPixel r mirroredX y v) r) mirroredImg

/-- Function `ImageCrop`: the rectangular sub-image with top-left corner `(x,y)`, width
`w` and height `h`, as a new image. -/
def ImageCrop (img : Image) (x y w h : Int) : Option Image :=
  if ImageValidRect img x y w h then do
    let croppedImg ← ImageCreate w h (img.maxval % 256)
    forLt 0 h (fun cy r =>
      forLt 0 w (fun cx r => do
        let v ← ImageGetPixel img (x + cx) (y + cy)
        ImageSetPixel r cx cy v) r) croppedImg
  else none

/-! ## Operations on two images -/

/-- Function `ImagePaste`: paste `img2` into position `(x, y)` of `img1` (in place: the
result is the new content of `img1`). -/
def ImagePaste (img1 : Image) (x y : Int) (img2 : Image) : Option Image :=
  if ImageValidRect img1 x y img2.width img2.height then
    forLt 0 img2.height (fun cy r =>
      forLt 0 img2.width (fun cx r => do
        let v ← ImageGetPixel img2 cx cy
        ImageSetPixel r (x + cx) (y + cy) v) r) img1
  else none

/-- Function `ImageMatchSubImage`: returns 1 if `img2` matches the sub-image of `img1`
at position `(x, y)`, and 0 otherwise. -/
def ImageMatchSubImage (img1 : Image) (x y : Int) (img2 : Image) : Option Int :=
  if ImageValidPos img1 x y then
    match searchLt 0 img2.height (fun cy =>
            searchLt 0 img2.width (fun cx => do
              let a ← ImageGetPixel img1 (x + cx) (y + cy)
              let b ← ImageGetPixel img2 cx cy
              if a ≠ b then some (some (0 : Int)) else some none)) with
    | none => none
    | some (some r) => some r
    | some none => some 1
  else none

/-- Function `ImageLocateSubImage`: searches for `img2` inside `img1`.  The result is
the returned `int` together with the final values of `*px` and `*py`, whose
values before the call are `px` and `py`. -/
def ImageLocateSubImage (img1 : Image) (px py : Int) (img2 : Image) :
    Option (Int × Int × Int) :=
  match searchLe 0 (img1.height - img2.height) (fun y =>
          searchLe 0 (img1.width - img2.width) (fun x => do
            let m ← ImageMatchSubImage img1 x y img2
            if m ≠ 0 then some (some ((1 : Int), x, y)) else some none)) with
  | none => none
  | some (some r) => some r
  | some none => some (0, px, py)

/-! ## Pixel transformations with real-valued parameters

The `double` parameters of `ImageBrighten` and `ImageBlend` are modelled by
rationals: the model is exact whenever the products and sums of the source are
exactly representable, as they are for small dyadic factors. -/

/-- Truncation toward zero, the value-changing part of a C conversion from
`double` to an integer type. -/
def truncToInt (d : ℚ) : Int := if 0 ≤ d then ⌊d⌋ else ⌈d⌉

/-- The conversion `(uint8)d` of a real value `d`: C defines it only when the
truncated value is representable in `uint8`. -/
def castUint8 (d : ℚ) : Option Nat :=
  let t := truncToInt d
  if 0 ≤ t ∧ t ≤ 255 then some t.toNat else none

/-- Function `ImageBrighten`: multiply each pixel level by a factor (in place: the
result is the new content of `img`). -/
def ImageBrighten (img : Image) (factor : ℚ) : Option Image :=
  forLt 0 (img.width * img.height) (fun i (im : Image) => do
    let currentLevel ← im.pixel[i.toNat]?
    let newLevel ← castUint8 ((currentLevel : ℚ) * factor + 1 / 2)
    let newLevel := if newLevel > PixMax then PixMax else newLevel
    if i.toNat < im.pixel.length then
      some { im with pixel := im.pixel.set i.toNat newLevel }
    else none) img

/-- Function `ImageBlend`: blend `img2` into position `(x, y)` of `img1` (in place: the
result is the new content of `img1`). -/
def ImageBlend (img1 : Image) (x y : Int) (img2 : Image) (alpha : ℚ) : Option Image :=
  if ImageValidRect img1 x y img2.width img2.height then
    forLt 0 img2.height (fun cy r =>
      forLt 0 img2.width (fun cx (r : Image) => do
        let p1 ← ImageGetPixel r (x + cx) (y + cy)
        let p2 ← ImageGetPixel img2 cx cy
        let blendedValue ← castUint8 ((1 - alpha) * (p1 : ℚ) + alpha * (p2 : ℚ) + 1 / 2)
        ImageSetPixel r (x + cx) (y + cy) blendedValue) r) img1
  else none

/-! ## Filtering -/

/-- Function `ImageBlur`: the `(2dx+1)x(2dy+1)` mean filter of the source, with its
literal expression `(2*sum + count) / 2*count` converted to `uint8` (in place:
the result is the new content of `img`).  The `int` arithmetic is exact as long
as the product stays below `2^31`, as it does for windows of up to 53x53
pixels. -/
def ImageBlur (img : Image) (dx dy : Int) : Option Image := do
  let blurredImg ← ImageCreate img.width img.height (img.maxval % 256)
  let blurredImg ← forLt 0 img.height (fun y b =>
    forLt 0 img.width (fun x b => do
      let (sum, count) ← forLe (y - dy) (y + dy) (fun cy acc =>
        forLe (x - dx) (x + dx) (fun cx (acc : Int × Int) =>
          if ImageValidPos img cx cy then do
            let v ← ImageGetPixel img cx cy
            some (acc.1 + (v : Int), acc.2 + 1)
          else some acc) acc) ((0 : Int), (0 : Int))
      let meanValue : Int :=
        if count > 0 then (Int.tdiv (2 * sum + count) 2 * count) % 256 else 0
      ImageSetPixel b x y meanValue.toNat) b) blurredImg
  forLt 0 img.height (fun y im =>
    forLt 0 img.width (fun x im => do
      let v ← ImageGetPixel blurredImg x y
      ImageSetPixel im x y v) im) img

/-! ## Reference definitions taken from the specification -/

/-- The in-bounds positions of the window `[x-dx,x+dx] x [y-dy,y+dy]`, in scan
order. -/
def windowPositions (img : Image) (x y dx dy : Int) : List (Int × Int) :=
  ((List.range (2 * dy + 1).toNat).flatMap fun j =>
    (List.range (2 * dx + 1).toNat).map fun i => (x - dx + (i : Int), y - dy + (j : Int))).filter
      fun p => ImageValidPos img p.1 p.2

/-- The round-half-up integer mean `floor((2*sum + count) / (2*count))` of the
samples of `img` at the in-bounds positions of the window around `(x,y)`, as
the specification of the blur filter words it. -/
def roundedWindowMean (img : Image) (x y dx dy : Int) : Int :=
  let ps := windowPositions img x y dx dy
  let sum : Int := (ps.map fun p => (((ImageGetPixel img p.1 p.2).getD 0 : Nat) : Int)).sum
  let count : Int := ps.length
  (2 * sum + count) / (2 * count)

/-- Saturation of an integer to the range `[lo, hi]`. -/
def clamp (v lo hi : Int) : Int := if v < lo then lo else if hi < v then hi else v

/-- The value the specification assigns to a blended pixel:
`clamp(floor((1-alpha)*p1 + alpha*p2 + 0.5), 0, maxval)`. -/
def blendSpec (alpha : ℚ) (p1 p2 : Nat) (maxval : Int) : Int :=
  clamp ⌊(1 - alpha) * (p1 : ℚ) + alpha * (p2 : ℚ) + 1 / 2⌋ 0 maxval

/-- Position `(x,y)` lies in the search range of `ImageLocateSubImage`:
`0 <= y <= height1-height2` and `0 <= x <= width1-width2`. -/
def InSearchRange (img1 img2 : Image) (x y : Int) : Prop :=
  (0 ≤ y ∧ y ≤ img1.height - img2.height) ∧ (0 ≤ x ∧ x ≤ img1.width - img2.width)

/-- Row-major order on positions: `(x',y')` is scanned before `(x,y)`. -/
def ScannedBefore (x' y' x y : Int) : Prop := y' < y ∨ (y' = y ∧ x' < x)

/-- The pairs of images on which the search of `ImageLocateSubImage` calls
`ImageMatchSubImage` at an anchor outside `img1`: both images are empty and
`img2` is no larger than `img1` in either dimension. -/
def EmptySearch (img1 img2 : Image) : Prop :=
  (img2.width = 0 ∨ img2.height = 0) ∧ (img1.width = 0 ∨ img1.height = 0) ∧
    img2.width ≤ img1.width ∧ img2.height ≤ img1.height

/-- The data-model invariant on samples: every stored sample is `<= maxval`. -/
def SamplesBounded (img : Image) : Prop := ∀ v ∈ img.pixel, (v : Int) ≤ img.maxval

/-- The type of the pixel array: every stored sample is a `uint8` value. -/
def SamplesAreBytes (img : Image) : Prop := ∀ v ∈ img.pixel, v < 256

/-- Sample of `img` at `(x,y)`, with 0 standing for an invalid position. -/
def pix (img : Image) (x y : Int) : Nat := (ImageGetPixel img x y).getD 0

/-! ## Concrete images used as inputs -/

/-- A 3x3 image with nine distinct samples. -/
def sample3x3 : Image := { width := 3, height := 3, maxval := 255, pixel := [1, 2, 3, 4, 5, 6, 7, 8, 9] }

/-- A 3x2 (non-square) image with six distinct samples. -/
def sample3x2 : Image := { width := 3, height := 2, maxval := 255, pixel := [1, 2, 3, 4, 5, 6] }

/-- The 2x2 lower-right corner of `sample3x3`. -/
def corner2x2 : Image := { width := 2, height := 2, maxval := 255, pixel := [5, 6, 8, 9] }

/-- A 1x1 image whose sample occurs nowhere in `sample3x3`. -/
def alien1x1 : Image := { width := 1, height := 1, maxval := 255, pixel := [77] }

/-- The image with no pixels. -/
def emptyImage : Image := { width := 0, height := 0, maxval := 255, pixel := [] }

/-- A 3x3 image all of whose samples are 10. -/
def flat3x3 : Image :=
  { width := 3, height := 3, maxval := 255, pixel := [10, 10, 10, 10, 10, 10, 10, 10, 10] }

/-- A 1x1 image of maxval 100 holding the sample 100. -/
def white100 : Image := { width := 1, height := 1, maxval := 100, pixel := [100] }

/-- A 1x1 image of maxval 100 holding the sample 0. -/
def black100 : Image := { width := 1, height := 1, maxval := 100, pixel := [0] }

/-- A 3x3 image of maxval 100 all of whose samples are 10. -/
def dim3x3 : Image :=
  { width := 3, height := 3, maxval := 100, pixel := [10, 10, 10, 10, 10, 10, 10, 10, 10] }

/-- A 2x2 image with four distinct samples. -/
def sample2x2 : Image := { width := 2, height := 2, maxval := 255, pixel := [40, 10, 30, 20] }

/-- An image of width 3 and height 0: it has no pixels. -/
def strip3x0 : Image := { width := 3, height := 0, maxval := 255, pixel := [] }

/-- An image of width 2 and height 0: it has no pixels. -/
def strip2x0 : Image := { width := 2, height := 0, maxval := 255, pixel := [] }

/-! ## Auxiliary predicates for the proofs -/

/-- The array has exactly `width*height` cells. -/
def Sized (img : Image) : Prop := (img.pixel.length : Int) = img.width * img.height

/-- Images `a` and `b` agree on everything but the content of the pixel array. -/
def SameShape (a b : Image) : Prop :=
  a.width = b.width ∧ a.height = b.height ∧ a.maxval = b.maxval ∧
    a.pixel.length = b.pixel.length

/-- Invariant of a pixel-copying loop nest: `s` has the shape of `dst`, holds
`f a b` at the target `(posx a b, posy a b)` of every source position `(a,b)`
already handled (those in `D`), and agrees with `dst` everywhere else. -/
def BlitInv (dst : Image) (posx posy : Int → Int → Int) (f : Int → Int → Nat)
    (D : Int → Int → Prop) (s : Image) : Prop :=
  SameShape s dst ∧
  (∀ a b, D a b → ImageGetPixel s (posx a b) (posy a b) = some (f a b)) ∧
  (∀ i j, (∀ a b, D a b → ¬ (posx a b = i ∧ posy a b = j)) →
    ImageGetPixel s i j = ImageGetPixel dst i j)

/-! # Theorems -/

/-! ## Loop rules -/

/-- Invariant rule for `forUp`: an invariant that holds initially and is carried
by every iteration, each of which succeeds, holds of the final state. -/
theorem forUp_spec {σ : Type} (body : Int → σ → Option σ) (n : Nat) :
    ∀ (Inv : Nat → σ → Prop) (i0 : Int) (s0 : σ), Inv 0 s0 →
      (∀ k s, k < n → Inv k s → ∃ s', body (i0 + k) s = some s' ∧ Inv (k + 1) s') →
      ∃ s', forUp body n i0 s0 = some s' ∧ Inv n s' := by
  induction n with
  | zero => intro Inv i0 s0 h0 _; exact ⟨s0, rfl, h0⟩
  | succ n ih =>
    intro Inv i0 s0 h0 hstep
    obtain ⟨s1, hb, h1⟩ := hstep 0 s0 (Nat.succ_pos n) h0
    simp only [Nat.cast_zero, add_zero] at hb
    obtain ⟨s', hs', hI⟩ := ih (fun k s => Inv (k + 1) s) (i0 + 1) s1 h1 (by
      intro k s hk hI
      obtain ⟨s2, hb2, h2⟩ := hstep (k + 1) s (Nat.succ_lt_succ hk) hI
      refine ⟨s2, ?_, h2⟩
      rw [← hb2]; congr 1; push_cast; ring)
    exact ⟨s', by simp [forUp, hb, hs'], hI⟩

/-- Invariant rule for the loop `for (i = 0; i < hi; ++i)`. -/
theorem forLt_zero_spec {σ : Type} (body : Int → σ → Option σ) (hi : Int) (Inv : Int → σ → Prop)
    (s0 : σ) (hhi : 0 ≤ hi) (h0 : Inv 0 s0)
    (hstep : ∀ k s, 0 ≤ k → k < hi → Inv k s → ∃ s', body k s = some s' ∧ Inv (k + 1) s') :
    ∃ s', forLt 0 hi body s0 = some s' ∧ Inv hi s' := by
  obtain ⟨s', h1, h2⟩ := forUp_spec body (hi - 0).toNat (fun k s => Inv (k : Int) s) 0 s0
    (by simpa using h0) (by
      intro k s hk hI
      have hk' : (k : Int) < hi := by omega
      obtain ⟨s2, hb, h2⟩ := hstep k s (by omega) hk' hI
      exact ⟨s2, by simpa using hb, by simpa using h2⟩)
  refine ⟨s', h1, ?_⟩
  have hcast : (((hi - 0).toNat : Nat) : Int) = hi := by omega
  have h3 : Inv (((hi - 0).toNat : Nat) : Int) s' := h2
  rwa [hcast] at h3

/-! ## Row-major indexing -/

theorem validPos_iff (img : Image) (x y : Int) :
    ImageValidPos img x y = true ↔ (0 ≤ x ∧ x < img.width) ∧ (0 ≤ y ∧ y < img.height) := by
  simp [ImageValidPos]

theorem validRect_iff (img : Image) (x y w h : Int) :
    ImageValidRect img x y w h = true ↔
      0 ≤ x ∧ 0 ≤ y ∧ x + w ≤ img.width ∧ y + h ≤ img.height := by
  simp [ImageValidRect, and_assoc]

/-- The linear index of a valid position lies in `[0, width*height)`. -/
theorem index_bounds {w h x y : Int} (hx0 : 0 ≤ x) (hxw : x < w) (hy0 : 0 ≤ y) (hyh : y < h) :
    0 ≤ y * w + x ∧ y * w + x < w * h := by
  have hw : 0 ≤ w := by omega
  have h1 : 0 ≤ y * w := Int.mul_nonneg hy0 hw
  have h2 : (y + 1) * w ≤ h * w := Int.mul_le_mul_of_nonneg_right (by omega) hw
  constructor
  · omega
  · have h3 : (y + 1) * w = y * w + w := by ring
    have h4 : h * w = w * h := by ring
    omega

/-- Distinct positions of a row-major array have distinct linear indices. -/
theorem index_inj {w x y x' y' : Int} (hx0 : 0 ≤ x) (hxw : x < w) (hx0' : 0 ≤ x')
    (hxw' : x' < w) (h : y * w + x = y' * w + x') : x = x' ∧ y = y' := by
  have hw : 0 ≤ w := by omega
  have hy : y = y' := by
    rcases lt_trichotomy y y' with hlt | heq | hgt
    · exfalso
      have h2 : (y + 1) * w ≤ y' * w := Int.mul_le_mul_of_nonneg_right (by omega) hw
      have h3 : (y + 1) * w = y * w + w := by ring
      omega
    · exact heq
    · exfalso
      have h2 : (y' + 1) * w ≤ y * w := Int.mul_le_mul_of_nonneg_right (by omega) hw
      have h3 : (y' + 1) * w = y' * w + w := by ring
      omega
  subst hy
  exact ⟨by omega, rfl⟩

theorem wf_sized {img : Image} (h : img.WF) : Sized img := h.2.2.2

theorem G_valid {img : Image} {x y : Int} (hv : ImageValidPos img x y = true) :
    G img x y = some (y * img.width + x) := by
  rw [validPos_iff] at hv
  have := index_bounds hv.1.1 hv.1.2 hv.2.1 hv.2.2
  simp [G, this]

/-- A read at a valid position of a correctly sized image succeeds. -/
theorem getPixel_valid {img : Image} {x y : Int} (hs : Sized img)
    (hv : ImageValidPos img x y = true) :
    ImageGetPixel img x y = some (pix img x y) := by
  have hv' := (validPos_iff img x y).1 hv
  have hb := index_bounds hv'.1.1 hv'.1.2 hv'.2.1 hv'.2.2
  have hlt : (y * img.width + x).toNat < img.pixel.length := by
    unfold Sized at hs; omega
  have hget : ImageGetPixel img x y = img.pixel[(y * img.width + x).toNat]? := by
    simp [ImageGetPixel, hv, G_valid hv]
  rw [pix, hget, List.getElem?_eq_getElem hlt]
  rfl

theorem getPixel_invalid {img : Image} {x y : Int} (hv : ¬ ImageValidPos img x y = true) :
    ImageGetPixel img x y = none := by
  simp [ImageGetPixel, hv]

theorem getPixel_some_valid {img : Image} {x y : Int} {v : Nat}
    (h : ImageGetPixel img x y = some v) : ImageValidPos img x y = true := by
  by_contra hv
  rw [getPixel_invalid hv] at h
  exact Option.noConfusion h

theorem SameShape.refl (a : Image) : SameShape a a := ⟨rfl, rfl, rfl, rfl⟩

theorem SameShape.trans {a b c : Image} (h1 : SameShape a b) (h2 : SameShape b c) :
    SameShape a c :=
  ⟨h1.1.trans h2.1, h1.2.1.trans h2.2.1, h1.2.2.1.trans h2.2.2.1, h1.2.2.2.trans h2.2.2.2⟩

theorem sameShape_sized {a b : Image} (h : SameShape a b) (hb : Sized b) : Sized a := by
  unfold Sized at *
  rw [h.1, h.2.1, h.2.2.2]; exact hb

theorem SameShape.validPos {a b : Image} (h : SameShape a b) (x y : Int) :
    ImageValidPos a x y = ImageValidPos b x y := by
  simp [ImageValidPos, h.1, h.2.1]

/-- A store at a valid position succeeds, keeps the shape, and changes exactly
that position. -/
theorem setPixel_spec {img : Image} {x y : Int} (v : Nat) (hs : Sized img)
    (hv : ImageValidPos img x y = true) :
    ∃ img', ImageSetPixel img x y v = some img' ∧ SameShape img' img ∧
      ImageGetPixel img' x y = some v ∧
      ∀ x' y', ¬ (x' = x ∧ y' = y) → ImageGetPixel img' x' y' = ImageGetPixel img x' y' := by
  have hv' := (validPos_iff img x y).1 hv
  have hb := index_bounds hv'.1.1 hv'.1.2 hv'.2.1 hv'.2.2
  have hlt : (y * img.width + x).toNat < img.pixel.length := by
    unfold Sized at hs; omega
  refine ⟨{ img with pixel := img.pixel.set (y * img.width + x).toNat v }, ?_, ?_, ?_, ?_⟩
  · simp [ImageSetPixel, hv, G_valid hv, hlt]
  · exact ⟨rfl, rfl, rfl, by simp⟩
  · have hv2 : ImageValidPos { img with pixel := img.pixel.set (y * img.width + x).toNat v } x y
        = true := by simpa [ImageValidPos] using hv'
    simp [ImageGetPixel, hv2, G_valid hv2, hlt]
  · intro x' y' hne
    by_cases hv3 : ImageValidPos img x' y' = true
    · have hv4 : ImageValidPos { img with pixel := img.pixel.set (y * img.width + x).toNat v }
          x' y' = true := by simpa [ImageValidPos] using (validPos_iff img x' y').1 hv3
      have hv3' := (validPos_iff img x' y').1 hv3
      have hb' := index_bounds hv3'.1.1 hv3'.1.2 hv3'.2.1 hv3'.2.2
      have hidx : (y * img.width + x).toNat ≠ (y' * img.width + x').toNat := by
        intro he
        have he' : y * img.width + x = y' * img.width + x' := by omega
        have := index_inj hv'.1.1 hv'.1.2 hv3'.1.1 hv3'.1.2 he'
        exact hne ⟨this.1.symm, this.2.symm⟩
      simp [ImageGetPixel, hv3, hv4, G_valid hv3, G_valid hv4, List.getElem?_set_ne hidx]
    · have hv4 : ¬ ImageValidPos { img with pixel := img.pixel.set (y * img.width + x).toNat v }
          x' y' = true := by simpa [ImageValidPos] using hv3
      rw [getPixel_invalid hv3, getPixel_invalid hv4]

/-! ## Pixel-copying loop nests -/

theorem BlitInv.congr {dst : Image} {posx posy : Int → Int → Int} {f : Int → Int → Nat}
    {D D' : Int → Int → Prop} {s : Image} (h : BlitInv dst posx posy f D s)
    (hD : ∀ a b, D' a b ↔ D a b) : BlitInv dst posx posy f D' s := by
  refine ⟨h.1, ?_, ?_⟩
  · intro a b hab; exact h.2.1 a b ((hD a b).1 hab)
  · intro i j hij; exact h.2.2 i j (fun a b hab => hij a b ((hD a b).2 hab))

theorem BlitInv.init (dst : Image) (posx posy : Int → Int → Int) (f : Int → Int → Nat)
    (D : Int → Int → Prop) (hD : ∀ a b, ¬ D a b) : BlitInv dst posx posy f D dst :=
  ⟨SameShape.refl dst, fun a b hab => absurd hab (hD a b), fun _ _ _ => rfl⟩

/-- One store extends the set of handled positions by one. -/
theorem BlitInv.step {dst : Image} {posx posy : Int → Int → Int} {f : Int → Int → Nat}
    {D : Int → Int → Prop} {s : Image} (hdst : Sized dst)
    (h : BlitInv dst posx posy f D s) (a0 b0 : Int)
    (hv : ImageValidPos dst (posx a0 b0) (posy a0 b0) = true)
    (hfresh : ∀ a b, D a b → ¬ (posx a b = posx a0 b0 ∧ posy a b = posy a0 b0)) :
    ∃ s', ImageSetPixel s (posx a0 b0) (posy a0 b0) (f a0 b0) = some s' ∧
      BlitInv dst posx posy f (fun a b => D a b ∨ (a = a0 ∧ b = b0)) s' := by
  have hs : Sized s := sameShape_sized h.1 hdst
  have hv' : ImageValidPos s (posx a0 b0) (posy a0 b0) = true := by
    rw [h.1.validPos]; exact hv
  obtain ⟨s', hset, hshape, hsame, hother⟩ := setPixel_spec (f a0 b0) hs hv'
  refine ⟨s', hset, hshape.trans h.1, ?_, ?_⟩
  · intro a b hab
    rcases hab with hab | ⟨rfl, rfl⟩
    · rw [hother _ _ (hfresh a b hab)]; exact h.2.1 a b hab
    · exact hsame
  · intro i j hij
    have hne : ¬ (i = posx a0 b0 ∧ j = posy a0 b0) := by
      intro he
      exact hij a0 b0 (Or.inr ⟨rfl, rfl⟩) ⟨he.1.symm, he.2.symm⟩
    rw [hother _ _ hne]
    exact h.2.2 i j (fun a b hab => hij a b (Or.inl hab))

/-- The nested copying loop `for cy < H, for cx < W: dst[pos cx cy] = f cx cy`. -/
theorem blit_spec (dst : Image) (hdst : Sized dst) (W H : Int) (hW : 0 ≤ W) (hH : 0 ≤ H)
    (posx posy : Int → Int → Int) (f : Int → Int → Nat)
    (body : Int → Int → Image → Option Image)
    (hbody : ∀ cx cy s, (0 ≤ cx ∧ cx < W) → (0 ≤ cy ∧ cy < H) → SameShape s dst →
      ImageGetPixel s (posx cx cy) (posy cx cy) = ImageGetPixel dst (posx cx cy) (posy cx cy) →
      body cy cx s = ImageSetPixel s (posx cx cy) (posy cx cy) (f cx cy))
    (hvalid : ∀ cx cy, (0 ≤ cx ∧ cx < W) → (0 ≤ cy ∧ cy < H) →
      ImageValidPos dst (posx cx cy) (posy cx cy) = true)
    (hinj : ∀ cx cy cx' cy', (0 ≤ cx ∧ cx < W) → (0 ≤ cy ∧ cy < H) →
      (0 ≤ cx' ∧ cx' < W) → (0 ≤ cy' ∧ cy' < H) →
      posx cx cy = posx cx' cy' → posy cx cy = posy cx' cy' → cx = cx' ∧ cy = cy') :
    ∃ r, forLt 0 H (fun cy s => forLt 0 W (fun cx s => body cy cx s) s) dst = some r ∧
      BlitInv dst posx posy f (fun a b => (0 ≤ a ∧ a < W) ∧ (0 ≤ b ∧ b < H)) r := by
  obtain ⟨r, hr, hI⟩ := forLt_zero_spec
    (fun cy s => forLt 0 W (fun cx s => body cy cx s) s) H
    (fun k s => BlitInv dst posx posy f (fun a b => (0 ≤ a ∧ a < W) ∧ (0 ≤ b ∧ b < k)) s)
    dst hH (BlitInv.init dst posx posy f _ (by intro a b h; omega))
    (by
      intro cy s hcy0 hcyH hI
      obtain ⟨s', hs', hI'⟩ := forLt_zero_spec (fun cx s => body cy cx s) W
        (fun k s => BlitInv dst posx posy f
          (fun a b => ((0 ≤ a ∧ a < W) ∧ (0 ≤ b ∧ b < cy)) ∨ (b = cy ∧ (0 ≤ a ∧ a < k))) s)
        s hW (hI.congr (by intro a b; constructor <;> intro h <;> omega))
        (by
          intro cx t hcx0 hcxW hJ
          have hfresh : ∀ a b,
              (((0 ≤ a ∧ a < W) ∧ (0 ≤ b ∧ b < cy)) ∨ (b = cy ∧ (0 ≤ a ∧ a < cx))) →
              ¬ (posx a b = posx cx cy ∧ posy a b = posy cx cy) := by
            intro a b hab he
            have hab' : (0 ≤ a ∧ a < W) ∧ (0 ≤ b ∧ b < H) := by omega
            have := hinj a b cx cy hab'.1 hab'.2 ⟨hcx0, hcxW⟩ ⟨hcy0, hcyH⟩ he.1 he.2
            omega
          have hbd := hbody cx cy t ⟨hcx0, hcxW⟩ ⟨hcy0, hcyH⟩ hJ.1
            (hJ.2.2 _ _ (fun a b hab => hfresh a b hab))
          obtain ⟨t', ht', hJ'⟩ := hJ.step hdst cx cy
            (hvalid cx cy ⟨hcx0, hcxW⟩ ⟨hcy0, hcyH⟩) hfresh
          refine ⟨t', hbd.trans ht', hJ'.congr ?_⟩
          intro a b; constructor <;> intro h <;> omega)
      exact ⟨s', hs', hI'.congr (by intro a b; constructor <;> intro h <;> omega)⟩)
  exact ⟨r, hr, hI⟩

theorem getPixel_eq_index {img : Image} {x y : Int} (hv : ImageValidPos img x y = true) :
    ImageGetPixel img x y = img.pixel[(y * img.width + x).toNat]? := by
  simp [ImageGetPixel, hv, G_valid hv]

/-! ## Extensionality and the geometric transformations -/

/-- Two images of the same shape with the same sample at every valid position
are equal. -/
theorem image_ext {a b : Image} (ha : Sized a) (hw : 0 ≤ a.width) (hshape : SameShape a b)
    (hpix : ∀ x y, ImageValidPos a x y = true → ImageGetPixel a x y = ImageGetPixel b x y) :
    a = b := by
  have hlist : a.pixel = b.pixel := by
    apply List.ext_getElem?
    intro n
    by_cases hn : n < a.pixel.length
    · have hnn : (n : Int) < a.width * a.height := by unfold Sized at ha; omega
      have hwpos : 0 < a.width := by
        rcases lt_or_ge 0 a.width with h | h
        · exact h
        · have : a.width = 0 := by omega
          rw [this, Int.zero_mul] at hnn; omega
      have hx0 : 0 ≤ (n : Int) % a.width := Int.emod_nonneg _ (by omega)
      have hxw : (n : Int) % a.width < a.width := Int.emod_lt_of_pos _ hwpos
      have hy0 : 0 ≤ (n : Int) / a.width := Int.ediv_nonneg (by omega) hw
      have hyh : (n : Int) / a.width < a.height :=
        Int.ediv_lt_of_lt_mul hwpos (by rw [Int.mul_comm]; exact hnn)
      have hva : ImageValidPos a ((n : Int) % a.width) ((n : Int) / a.width) = true :=
        (validPos_iff _ _ _).2 ⟨⟨hx0, hxw⟩, ⟨hy0, hyh⟩⟩
      have hvb : ImageValidPos b ((n : Int) % a.width) ((n : Int) / a.width) = true := by
        rw [← hshape.validPos]; exact hva
      have hidx : (n : Int) / a.width * a.width + (n : Int) % a.width = n :=
        Int.ediv_add_emod' _ _
      have h1 := getPixel_eq_index hva
      have h2 := getPixel_eq_index hvb
      rw [← hshape.1, hidx] at h2
      rw [hidx] at h1
      have := hpix _ _ hva
      rw [h1, h2] at this
      simpa using this
    · have hn' : ¬ n < b.pixel.length := by rw [← hshape.2.2.2]; exact hn
      rw [List.getElem?_eq_none (by omega), List.getElem?_eq_none (by omega)]
  obtain ⟨aw, ah, am, ap⟩ := a
  obtain ⟨bw, bh, bm, bp⟩ := b
  obtain ⟨h1, h2, h3, _⟩ := hshape
  simp only at h1 h2 h3 hlist
  subst h1 h2 h3 hlist
  rfl

/-- Function `ImageCreate` succeeds on non-negative dimensions and a maxval in
`1..255`, and returns a correctly sized image. -/
theorem create_spec {w h m : Int} (hw : 0 ≤ w) (hh : 0 ≤ h) (hm : 0 < m ∧ m ≤ 255) :
    ∃ r, ImageCreate w h (m % 256) = some r ∧ r.width = w ∧ r.height = h ∧ r.maxval = m ∧
      Sized r := by
  have hmod : m % 256 = m := Int.emod_eq_of_lt (by omega) (by omega)
  refine ⟨{ width := w, height := h, maxval := m,
            pixel := List.replicate (w * h).toNat 0 }, ?_, rfl, rfl, rfl, ?_⟩
  · rw [hmod]; simp [ImageCreate, PixMax, hw, hh, hm.1, hm.2]
  · have : 0 ≤ w * h := Int.mul_nonneg hw hh
    simp [Sized]; omega

/-- Function `ImageRotate` succeeds on a well-formed image and sends the sample at
`(x,y)` to `(y, width-1-x)`. -/
theorem rotate_spec {img : Image} (hwf : img.WF) :
    ∃ r, ImageRotate img = some r ∧ r.WF ∧ r.width = img.height ∧ r.height = img.width ∧
      r.maxval = img.maxval ∧
      ∀ x y, ImageValidPos img x y = true →
        ImageGetPixel r y (img.width - 1 - x) = ImageGetPixel img x y := by
  obtain ⟨hw, hh, hm, hlen⟩ := hwf
  obtain ⟨c, hc, hcw, hch, hcm, hcs⟩ := create_spec hh hw hm
  obtain ⟨r, hr, hshape, hwritten, -⟩ := blit_spec c hcs img.width img.height hw hh
    (fun cx cy => cy) (fun cx _ => img.width - 1 - cx) (fun cx cy => pix img cx cy)
    (fun y x r => do
      let rotatedX := y
      let rotatedY := img.width - 1 - x
      let v ← ImageGetPixel img x y
      ImageSetPixel r rotatedX rotatedY v)
    (by
      intro cx cy s hcx hcy _ _
      have hv : ImageValidPos img cx cy = true := (validPos_iff _ _ _).2 ⟨hcx, hcy⟩
      simp [getPixel_valid hlen hv])
    (by
      intro cx cy hcx hcy
      simp only [validPos_iff, hcw, hch]; omega)
    (by intro cx cy cx' cy' _ _ _ _ h1 h2; simp only at h1 h2; omega)
  refine ⟨r, ?_, ?_, hshape.1.trans hcw, hshape.2.1.trans hch, hshape.2.2.1.trans hcm, ?_⟩
  · simp only [ImageRotate, hc, Option.bind_eq_bind, Option.some_bind]; exact hr
  · have hs : Sized r := sameShape_sized hshape hcs
    refine ⟨by rw [hshape.1, hcw]; exact hh, by rw [hshape.2.1, hch]; exact hw, ?_, hs⟩
    rw [hshape.2.2.1, hcm]; exact hm
  · intro x y hv
    have hv' := (validPos_iff _ _ _).1 hv
    rw [hwritten x y ⟨hv'.1, hv'.2⟩, getPixel_valid hlen hv]

/-- Function `ImageMirror` succeeds on a well-formed image and sends the sample at
`(x,y)` to `(width-1-x, y)`. -/
theorem mirror_spec {img : Image} (hwf : img.WF) :
    ∃ r, ImageMirror img = some r ∧ r.WF ∧ r.width = img.width ∧ r.height = img.height ∧
      r.maxval = img.maxval ∧
      ∀ x y, ImageValidPos img x y = true →
        ImageGetPixel r (img.width - 1 - x) y = ImageGetPixel img x y := by
  obtain ⟨hw, hh, hm, hlen⟩ := hwf
  obtain ⟨c, hc, hcw, hch, hcm, hcs⟩ := create_spec hw hh hm
  obtain ⟨r, hr, hshape, hwritten, -⟩ := blit_spec c hcs img.width img.height hw hh
    (fun cx _ => img.width - 1 - cx) (fun _ cy => cy) (fun cx cy => pix img cx cy)
    (fun y x r => do
      let mirroredX := img.width - 1 - x
      let v ← ImageGetPixel img x y
      ImageSetPixel r mirroredX y v)
    (by
      intro cx cy s hcx hcy _ _
      have hv : ImageValidPos img cx cy = true := (validPos_iff _ _ _).2 ⟨hcx, hcy⟩
      simp [getPixel_valid hlen hv])
    (by
      intro cx cy hcx hcy
      simp only [validPos_iff, hcw, hch]; omega)
    (by intro cx cy cx' cy' _ _ _ _ h1 h2; simp only at h1 h2; omega)
  refine ⟨r, ?_, ?_, hshape.1.trans hcw, hshape.2.1.trans hch, hshape.2.2.1.trans hcm, ?_⟩
  · simp only [ImageMirror, hc, Option.bind_eq_bind, Option.some_bind]; exact hr
  · have hs : Sized r := sameShape_sized hshape hcs
    refine ⟨by rw [hshape.1, hcw]; exact hw, by rw [hshape.2.1, hch]; exact hh, ?_, hs⟩
    rw [hshape.2.2.1, hcm]; exact hm
  · intro x y hv
    have hv' := (validPos_iff _ _ _).1 hv
    rw [hwritten x y ⟨hv'.1, hv'.2⟩, getPixel_valid hlen hv]

/-- Function `ImageCrop` succeeds on a valid rectangle with non-negative sides and
copies the samples of the rectangle. -/
theorem crop_spec {img : Image} (hwf : img.WF) {x y w h : Int} (hw0 : 0 ≤ w) (hh0 : 0 ≤ h)
    (hrect : ImageValidRect img x y w h = true) :
    ∃ r, ImageCrop img x y w h = some r ∧ r.WF ∧ r.width = w ∧ r.height = h ∧
      r.maxval = img.maxval ∧
      ∀ cx cy, (0 ≤ cx ∧ cx < w) → (0 ≤ cy ∧ cy < h) →
        ImageGetPixel r cx cy = some (pix img (x + cx) (y + cy)) ∧
        ImageGetPixel img (x + cx) (y + cy) = some (pix img (x + cx) (y + cy)) := by
  obtain ⟨hw, hh, hm, hlen⟩ := hwf
  have hrect' := (validRect_iff _ _ _ _ _).1 hrect
  obtain ⟨c, hc, hcw, hch, hcm, hcs⟩ := create_spec hw0 hh0 hm
  have hvimg : ∀ cx cy, (0 ≤ cx ∧ cx < w) → (0 ≤ cy ∧ cy < h) →
      ImageValidPos img (x + cx) (y + cy) = true := by
    intro cx cy hcx hcy
    rw [validPos_iff]; omega
  obtain ⟨r, hr, hshape, hwritten, -⟩ := blit_spec c hcs w h hw0 hh0
    (fun cx _ => cx) (fun _ cy => cy) (fun cx cy => pix img (x + cx) (y + cy))
    (fun cy cx r => do
      let v ← ImageGetPixel img (x + cx) (y + cy)
      ImageSetPixel r cx cy v)
    (by
      intro cx cy s hcx hcy _ _
      simp [getPixel_valid hlen (hvimg cx cy hcx hcy)])
    (by
      intro cx cy hcx hcy
      simp only [validPos_iff, hcw, hch]; omega)
    (by intro cx cy cx' cy' _ _ _ _ h1 h2; simp only at h1 h2; omega)
  refine ⟨r, ?_, ?_, hshape.1.trans hcw, hshape.2.1.trans hch, hshape.2.2.1.trans hcm, ?_⟩
  · simp only [ImageCrop, hrect, if_true, hc, Option.bind_eq_bind, Option.some_bind]; exact hr
  · have hs : Sized r := sameShape_sized hshape hcs
    refine ⟨by rw [hshape.1, hcw]; exact hw0, by rw [hshape.2.1, hch]; exact hh0, ?_, hs⟩
    rw [hshape.2.2.1, hcm]; exact hm
  · intro cx cy hcx hcy
    exact ⟨hwritten cx cy ⟨hcx, hcy⟩, getPixel_valid hlen (hvimg cx cy hcx hcy)⟩

/-- Function `ImagePaste` succeeds when `img2` fits inside `img1` at `(x,y)`; it
overwrites the footprint with the samples of `img2` and nothing else. -/
theorem paste_spec {img1 img2 : Image} (h1 : img1.WF) (h2 : img2.WF) {x y : Int}
    (hrect : ImageValidRect img1 x y img2.width img2.height = true) :
    ∃ r, ImagePaste img1 x y img2 = some r ∧ SameShape r img1 ∧
      (∀ cx cy, ImageValidPos img2 cx cy = true →
        ImageGetPixel r (x + cx) (y + cy) = ImageGetPixel img2 cx cy) ∧
      (∀ i j, ¬ ((x ≤ i ∧ i < x + img2.width) ∧ (y ≤ j ∧ j < y + img2.height)) →
        ImageGetPixel r i j = ImageGetPixel img1 i j) := by
  have hrect' := (validRect_iff _ _ _ _ _).1 hrect
  obtain ⟨r, hr, hshape, hwritten, hrest⟩ := blit_spec img1 (wf_sized h1) img2.width img2.height
    h2.1 h2.2.1
    (fun cx _ => x + cx) (fun _ cy => y + cy) (fun cx cy => pix img2 cx cy)
    (fun cy cx r => do
      let v ← ImageGetPixel img2 cx cy
      ImageSetPixel r (x + cx) (y + cy) v)
    (by
      intro cx cy s hcx hcy _ _
      have hv : ImageValidPos img2 cx cy = true := (validPos_iff _ _ _).2 ⟨hcx, hcy⟩
      simp [getPixel_valid (wf_sized h2) hv])
    (by
      intro cx cy hcx hcy
      simp only [validPos_iff]; omega)
    (by intro cx cy cx' cy' _ _ _ _ h1 h2; simp only at h1 h2; omega)
  refine ⟨r, ?_, hshape, ?_, ?_⟩
  · simp only [ImagePaste, hrect, if_true]; exact hr
  · intro cx cy hv
    have hv' := (validPos_iff _ _ _).1 hv
    rw [hwritten cx cy ⟨hv'.1, hv'.2⟩, getPixel_valid (wf_sized h2) hv]
  · intro i j hout
    apply hrest
    intro a b hab he
    simp only at he
    omega

/-! ## Search loops -/

/-- The search loop returns what its first iteration that does not continue
returns (or aborts there); it falls through when every iteration continues. -/
theorem searchUp_first {ρ : Type} (body : Int → Option (Option ρ)) (n : Nat) :
    ∀ i0 : Int,
      (searchUp body n i0 = some none ∧ ∀ k : Nat, k < n → body (i0 + k) = some none) ∨
      (∃ k : Nat, k < n ∧ body (i0 + k) ≠ some none ∧
        (∀ j : Nat, j < k → body (i0 + j) = some none) ∧
        searchUp body n i0 = body (i0 + k)) := by
  induction n with
  | zero => intro i0; exact Or.inl ⟨rfl, fun k hk => absurd hk (Nat.not_lt_zero k)⟩
  | succ n ih =>
    intro i0
    by_cases h0 : body i0 = some none
    · have hshift : ∀ k : Nat, body (i0 + 1 + (k : Int)) = body (i0 + ((k + 1 : Nat) : Int)) := by
        intro k; congr 1; push_cast; ring
      have hunf : searchUp body (n + 1) i0 = searchUp body n (i0 + 1) := by
        simp [searchUp, h0]
      rcases ih (i0 + 1) with ⟨hres, hall⟩ | ⟨k, hk, hne, hearly, hres⟩
      · left
        refine ⟨hunf.trans hres, ?_⟩
        intro k hk
        cases k with
        | zero => simpa using h0
        | succ k => rw [← hshift]; exact hall k (by omega)
      · right
        refine ⟨k + 1, by omega, by rw [← hshift]; exact hne, ?_, ?_⟩
        · intro j hj
          cases j with
          | zero => simpa using h0
          | succ j => rw [← hshift]; exact hearly j (by omega)
        · rw [hunf, hres, hshift]
    · right
      refine ⟨0, Nat.succ_pos n, by simpa using h0, fun j hj => absurd hj (Nat.not_lt_zero j), ?_⟩
      simp only [Nat.cast_zero, add_zero]
      cases hb : body i0 with
      | none => simp [searchUp, hb]
      | some o =>
        cases o with
        | none => exact absurd hb h0
        | some r => simp [searchUp, hb]

/-- Integer-indexed form of `searchUp_first` for a loop starting at 0 with
`n` iterations, `n` being the non-negative part of `cnt`. -/
theorem search_zero_first {ρ : Type} (body : Int → Option (Option ρ)) (cnt : Int) :
    (searchUp body cnt.toNat 0 = some none ∧ ∀ k : Int, 0 ≤ k → k < cnt → body k = some none) ∨
    (∃ k : Int, (0 ≤ k ∧ k < cnt) ∧ body k ≠ some none ∧
      (∀ j : Int, 0 ≤ j → j < k → body j = some none) ∧
      searchUp body cnt.toNat 0 = body k) := by
  rcases searchUp_first body cnt.toNat 0 with ⟨hres, hall⟩ | ⟨k, hk, hne, hearly, hres⟩
  · left
    refine ⟨hres, ?_⟩
    intro k hk0 hk
    have := hall k.toNat (by omega)
    rwa [Int.zero_add, Int.toNat_of_nonneg hk0] at this
  · right
    rw [Int.zero_add] at hne hres
    refine ⟨k, by omega, hne, ?_, hres⟩
    intro j hj0 hj
    have := hearly j.toNat (by omega)
    rwa [Int.zero_add, Int.toNat_of_nonneg hj0] at this

/-- A search loop all of whose iterations either continue (when `P k` holds)
or return the fixed value `r0` (when it does not) returns `r0` exactly when
some `P k` fails. -/
theorem search_zero_decide {ρ : Type} (body : Int → Option (Option ρ)) (cnt : Int) (r0 : ρ)
    (P : Int → Prop)
    (hbody : ∀ k : Int, 0 ≤ k → k < cnt →
      (P k ∧ body k = some none) ∨ (¬ P k ∧ body k = some (some r0))) :
    (searchUp body cnt.toNat 0 = some none ∧ ∀ k : Int, 0 ≤ k → k < cnt → P k) ∨
    (searchUp body cnt.toNat 0 = some (some r0) ∧ ∃ k : Int, (0 ≤ k ∧ k < cnt) ∧ ¬ P k) := by
  rcases search_zero_first body cnt with ⟨hres, hall⟩ | ⟨k, hk, hne, -, hres⟩
  · left
    refine ⟨hres, ?_⟩
    intro k hk0 hk
    rcases hbody k hk0 hk with ⟨hP, -⟩ | ⟨-, hb⟩
    · exact hP
    · have := hall k hk0 hk
      rw [hb] at this; simp at this
  · right
    rcases hbody k hk.1 hk.2 with ⟨-, hb⟩ | ⟨hP, hb⟩
    · exact absurd hb hne
    · exact ⟨by rw [hres, hb], k, hk, hP⟩

/-! ## Sub-image matching and search -/

/-- When `img2` fits inside `img1` at a valid anchor `(x,y)`,
`ImageMatchSubImage` returns 1 if all samples agree and 0 if some differ. -/
theorem match_spec {img1 img2 : Image} (h1 : Sized img1) (h2 : Sized img2) {x y : Int}
    (hpos : ImageValidPos img1 x y = true)
    (hrect : ImageValidRect img1 x y img2.width img2.height = true) :
    (ImageMatchSubImage img1 x y img2 = some 1 ∧
      ∀ cx cy, ImageValidPos img2 cx cy = true →
        pix img1 (x + cx) (y + cy) = pix img2 cx cy) ∨
    (ImageMatchSubImage img1 x y img2 = some 0 ∧
      ∃ cx cy, ImageValidPos img2 cx cy = true ∧
        pix img1 (x + cx) (y + cy) ≠ pix img2 cx cy) := by
  have hrect' := (validRect_iff _ _ _ _ _).1 hrect
  have hinner : ∀ cy, 0 ≤ cy → cy < img2.height - 0 → ∀ cx, 0 ≤ cx → cx < img2.width - 0 →
      (pix img1 (x + cx) (y + cy) = pix img2 cx cy ∧
        (do
          let a ← ImageGetPixel img1 (x + cx) (y + cy)
          let b ← ImageGetPixel img2 cx cy
          if a ≠ b then some (some (0 : Int)) else some none) = some none) ∨
      (¬ pix img1 (x + cx) (y + cy) = pix img2 cx cy ∧
        (do
          let a ← ImageGetPixel img1 (x + cx) (y + cy)
          let b ← ImageGetPixel img2 cx cy
          if a ≠ b then some (some (0 : Int)) else some none) = some (some 0)) := by
    intro cy hcy0 hcy cx hcx0 hcx
    have hva : ImageValidPos img1 (x + cx) (y + cy) = true := by rw [validPos_iff]; omega
    have hvb : ImageValidPos img2 cx cy = true := by rw [validPos_iff]; omega
    rw [getPixel_valid h1 hva, getPixel_valid h2 hvb]
    by_cases he : pix img1 (x + cx) (y + cy) = pix img2 cx cy
    · left; exact ⟨he, by simp [he]⟩
    · right; exact ⟨he, by simp [he]⟩
  have houter := search_zero_decide
    (fun cy => searchLt 0 img2.width (fun cx => do
      let a ← ImageGetPixel img1 (x + cx) (y + cy)
      let b ← ImageGetPixel img2 cx cy
      if a ≠ b then some (some (0 : Int)) else some none))
    (img2.height - 0) (0 : Int)
    (fun cy => ∀ cx, 0 ≤ cx → cx < img2.width - 0 →
      pix img1 (x + cx) (y + cy) = pix img2 cx cy)
    (by
      intro cy hcy0 hcy
      rcases search_zero_decide _ (img2.width - 0) (0 : Int)
        (fun cx => pix img1 (x + cx) (y + cy) = pix img2 cx cy)
        (hinner cy hcy0 hcy) with ⟨hres, hall⟩ | ⟨hres, k, hk, hne⟩
      · left; exact ⟨hall, hres⟩
      · right
        exact ⟨fun hall => hne (hall k hk.1 hk.2), hres⟩)
  have hunf : ImageMatchSubImage img1 x y img2 =
      match searchUp (fun cy => searchLt 0 img2.width (fun cx => do
          let a ← ImageGetPixel img1 (x + cx) (y + cy)
          let b ← ImageGetPixel img2 cx cy
          if a ≠ b then some (some (0 : Int)) else some none)) (img2.height - 0).toNat 0 with
      | none => none
      | some (some r) => some r
      | some none => some 1 := by
    unfold ImageMatchSubImage
    rw [if_pos hpos]
    rfl
  rcases houter with ⟨hres, hall⟩ | ⟨hres, k, hk, hne⟩
  · left
    refine ⟨by rw [hunf, hres], ?_⟩
    intro cx cy hv
    rw [validPos_iff] at hv
    exact hall cy hv.2.1 (by omega) cx hv.1.1 (by omega)
  · right
    refine ⟨by rw [hunf, hres], ?_⟩
    by_contra hcon
    apply hne
    intro cx hcx0 hcx
    by_contra hne2
    exact hcon ⟨cx, k, (validPos_iff _ _ _).2 (by omega), hne2⟩

/-- Function `ImageMatchSubImage` returns 0 or 1 whenever it returns. -/
theorem match_result {img1 img2 : Image} {x y m : Int}
    (h : ImageMatchSubImage img1 x y img2 = some m) : m = 0 ∨ m = 1 := by
  unfold ImageMatchSubImage at h
  by_cases hpos : ImageValidPos img1 x y = true
  · simp only [hpos, if_true, searchLt] at h
    rcases search_zero_first (fun cy => searchUp (fun cx => do
          let a ← ImageGetPixel img1 (x + cx) (y + cy)
          let b ← ImageGetPixel img2 cx cy
          if a ≠ b then some (some (0 : Int)) else some none) (img2.width - 0).toNat 0)
        (img2.height - 0) with ⟨hres, -⟩ | ⟨k, -, hne, -, hres⟩
    · rw [hres] at h; simp at h; exact Or.inr h.symm
    · rw [hres] at h
      rcases search_zero_first (fun cx => do
          let a ← ImageGetPixel img1 (x + cx) (y + k)
          let b ← ImageGetPixel img2 cx k
          if a ≠ b then some (some (0 : Int)) else some none)
        (img2.width - 0) with ⟨hres2, -⟩ | ⟨j, -, hne2, -, hres2⟩
      · exact absurd hres2 hne
      · rw [show searchUp (fun cx => do
            let a ← ImageGetPixel img1 (x + cx) (y + k)
            let b ← ImageGetPixel img2 cx k
            if a ≠ b then some (some (0 : Int)) else some none) (img2.width - 0).toNat 0 = _ from hres2] at h
        cases ha : ImageGetPixel img1 (x + j) (y + k) with
        | none => simp [ha] at h
        | some a =>
          cases hb : ImageGetPixel img2 j k with
          | none => simp [ha, hb] at h
          | some b =>
            by_cases hab : a = b
            · simp [ha, hb, hab] at hne2
            · simp [ha, hb, hab] at h
              exact Or.inl h.symm
  · simp [hpos] at h

/-- One anchor test of the search continues exactly when the match returns 0,
returns the anchor when the match returns non-zero, and aborts with it. -/
theorem locate_step_cases (img1 img2 : Image) (x y : Int) :
    (ImageMatchSubImage img1 x y img2 = none ∧
      (do
        let m ← ImageMatchSubImage img1 x y img2
        if m ≠ 0 then some (some ((1 : Int), x, y)) else some none) = none) ∨
    (ImageMatchSubImage img1 x y img2 = some 0 ∧
      (do
        let m ← ImageMatchSubImage img1 x y img2
        if m ≠ 0 then some (some ((1 : Int), x, y)) else some none) = some none) ∨
    (ImageMatchSubImage img1 x y img2 = some 1 ∧
      (do
        let m ← ImageMatchSubImage img1 x y img2
        if m ≠ 0 then some (some ((1 : Int), x, y)) else some none) = some (some (1, x, y))) := by
  cases hm : ImageMatchSubImage img1 x y img2 with
  | none => left; simp
  | some m =>
    rcases match_result hm with h0 | h1
    · right; left; subst h0; simp
    · right; right; subst h1; simp

/-- Complete case analysis of a run of `ImageLocateSubImage`: it aborts at the
first anchor of the scan where the match aborts, reports the first anchor where
the match returns 1, and reports no match when the match returns 0 at every
anchor of the search range. -/
theorem locate_cases (img1 : Image) (px py : Int) (img2 : Image) :
    (ImageLocateSubImage img1 px py img2 = some (0, px, py) ∧
      ∀ x y, InSearchRange img1 img2 x y → ImageMatchSubImage img1 x y img2 = some 0) ∨
    (∃ x y, InSearchRange img1 img2 x y ∧
      (∀ x' y', InSearchRange img1 img2 x' y' → ScannedBefore x' y' x y →
        ImageMatchSubImage img1 x' y' img2 = some 0) ∧
      ((ImageMatchSubImage img1 x y img2 = some 1 ∧
          ImageLocateSubImage img1 px py img2 = some (1, x, y)) ∨
        (ImageMatchSubImage img1 x y img2 = none ∧
          ImageLocateSubImage img1 px py img2 = none))) := by
  have hunf : ImageLocateSubImage img1 px py img2 =
      match searchUp (fun y => searchUp (fun x => do
            let m ← ImageMatchSubImage img1 x y img2
            if m ≠ 0 then some (some ((1 : Int), x, y)) else some none)
          (img1.width - img2.width + 1 - 0).toNat 0)
        (img1.height - img2.height + 1 - 0).toNat 0 with
      | none => none
      | some (some r) => some r
      | some none => some (0, px, py) := rfl
  -- a row whose scan falls through has no match
  have hrow : ∀ y, searchUp (fun x => do
        let m ← ImageMatchSubImage img1 x y img2
        if m ≠ 0 then some (some ((1 : Int), x, y)) else some none)
      (img1.width - img2.width + 1 - 0).toNat 0 = some none →
      ∀ x, 0 ≤ x → x ≤ img1.width - img2.width →
        ImageMatchSubImage img1 x y img2 = some 0 := by
    intro y hy x hx0 hx
    rcases search_zero_first (fun x => do
        let m ← ImageMatchSubImage img1 x y img2
        if m ≠ 0 then some (some ((1 : Int), x, y)) else some none)
      (img1.width - img2.width + 1 - 0) with ⟨-, hall⟩ | ⟨k, -, hne, -, hres⟩
    · have hb := hall x hx0 (by omega)
      rcases locate_step_cases img1 img2 x y with ⟨-, h⟩ | ⟨h0, -⟩ | ⟨-, h⟩
      · rw [h] at hb; simp at hb
      · exact h0
      · rw [h] at hb; simp at hb
    · rw [hy] at hres; exact absurd hres.symm hne
  rcases search_zero_first (fun y => searchUp (fun x => do
        let m ← ImageMatchSubImage img1 x y img2
        if m ≠ 0 then some (some ((1 : Int), x, y)) else some none)
      (img1.width - img2.width + 1 - 0).toNat 0)
    (img1.height - img2.height + 1 - 0) with ⟨hres, hall⟩ | ⟨ky, hky, hne, hearly, hres⟩
  · left
    refine ⟨by rw [hunf, hres], ?_⟩
    intro x y hr
    exact hrow y (hall y hr.1.1 (by have := hr.1.2; omega)) x hr.2.1 hr.2.2
  · right
    rcases search_zero_first (fun x => do
        let m ← ImageMatchSubImage img1 x ky img2
        if m ≠ 0 then some (some ((1 : Int), x, ky)) else some none)
      (img1.width - img2.width + 1 - 0) with ⟨hres2, -⟩ | ⟨kx, hkx, hne2, hearly2, hres2⟩
    · exact absurd hres2 hne
    · refine ⟨kx, ky, ⟨⟨hky.1, by omega⟩, ⟨hkx.1, by omega⟩⟩, ?_, ?_⟩
      · intro x' y' hr hbefore
        rcases hbefore with hlt | ⟨heq, hlt⟩
        · exact hrow y' (hearly y' hr.1.1 hlt) x' hr.2.1 hr.2.2
        · subst heq
          have hb := hearly2 x' hr.2.1 hlt
          rcases locate_step_cases img1 img2 x' y' with ⟨-, h⟩ | ⟨h0, -⟩ | ⟨-, h⟩
          · rw [h] at hb; simp at hb
          · exact h0
          · rw [h] at hb; simp at hb
      · have hloc : ImageLocateSubImage img1 px py img2 =
            match (do
                let m ← ImageMatchSubImage img1 kx ky img2
                if m ≠ 0 then some (some ((1 : Int), kx, ky)) else some none) with
            | none => none
            | some (some r) => some r
            | some none => some (0, px, py) := by
          rw [hunf, hres]
          show (match searchUp (fun x => do
                let m ← ImageMatchSubImage img1 x ky img2
                if m ≠ 0 then some (some ((1 : Int), x, ky)) else some none)
              (img1.width - img2.width + 1 - 0).toNat 0 with
            | none => none
            | some (some r) => some r
            | some none => some (0, px, py)) = _
          rw [hres2]
        rcases locate_step_cases img1 img2 kx ky with ⟨hm, h⟩ | ⟨-, h⟩ | ⟨hm, h⟩
        · right; exact ⟨hm, by rw [hloc, h]⟩
        · exact absurd h hne2
        · left; exact ⟨hm, by rw [hloc, h]⟩

/-- Two positions are equal or one is scanned before the other. -/
theorem scan_trichotomy (a b c d : Int) :
    ScannedBefore a b c d ∨ ScannedBefore c d a b ∨ (a = c ∧ b = d) := by
  unfold ScannedBefore; omega

/-- The search reports the first anchor at which the match returns 1, provided
the match returns 0 at every anchor scanned before it. -/
theorem locate_first {img1 img2 : Image} (px py : Int) {x y : Int}
    (hr : InSearchRange img1 img2 x y) (hm : ImageMatchSubImage img1 x y img2 = some 1)
    (hearly : ∀ x' y', InSearchRange img1 img2 x' y' → ScannedBefore x' y' x y →
      ImageMatchSubImage img1 x' y' img2 = some 0) :
    ImageLocateSubImage img1 px py img2 = some (1, x, y) := by
  rcases locate_cases img1 px py img2 with ⟨-, hall⟩ | ⟨x0, y0, hr0, hearly0, hres⟩
  · have := hall x y hr
    rw [hm] at this; simp at this
  · rcases scan_trichotomy x0 y0 x y with hb | hb | ⟨rfl, rfl⟩
    · have h0 := hearly x0 y0 hr0 hb
      rcases hres with ⟨h, -⟩ | ⟨h, -⟩ <;> rw [h0] at h <;> simp at h
    · have h0 := hearly0 x y hr hb
      rw [hm] at h0; simp at h0
    · rcases hres with ⟨-, h⟩ | ⟨h, -⟩
      · exact h
      · rw [hm] at h; simp at h

/-- The search reports no match, leaving the coordinates untouched, when the
match returns 0 at every anchor of the search range. -/
theorem locate_absent {img1 img2 : Image} (px py : Int)
    (hall : ∀ x y, InSearchRange img1 img2 x y → ImageMatchSubImage img1 x y img2 = some 0) :
    ImageLocateSubImage img1 px py img2 = some (0, px, py) := by
  rcases locate_cases img1 px py img2 with ⟨h, -⟩ | ⟨x0, y0, hr0, -, hres⟩
  · exact h
  · have h0 := hall x0 y0 hr0
    rcases hres with ⟨h, -⟩ | ⟨h, -⟩ <;> rw [h0] at h <;> simp at h

/-- With a non-empty `img2`, every anchor of the search range is a valid
position at which `img2` fits, so the match returns 0 or 1 there. -/
theorem match_in_range {img1 img2 : Image} (h1 : Sized img1) (h2 : Sized img2)
    (hw : 0 < img2.width) (hh : 0 < img2.height) {x y : Int}
    (hr : InSearchRange img1 img2 x y) :
    (ImageMatchSubImage img1 x y img2 = some 1 ∧
      ∀ cx cy, ImageValidPos img2 cx cy = true →
        pix img1 (x + cx) (y + cy) = pix img2 cx cy) ∨
    (ImageMatchSubImage img1 x y img2 = some 0 ∧
      ∃ cx cy, ImageValidPos img2 cx cy = true ∧
        pix img1 (x + cx) (y + cy) ≠ pix img2 cx cy) := by
  unfold InSearchRange at hr
  exact match_spec h1 h2 ((validPos_iff _ _ _).2 (by omega))
    ((validRect_iff _ _ _ _ _).2 (by omega))

/-- Outside the pairs of `EmptySearch`, either the match returns 0 or 1 at
every anchor of the search range, or it returns 1 at the first anchor `(0,0)`. -/
theorem search_safe {img1 img2 : Image} (h1 : img1.WF) (h2 : img2.WF)
    (hne : ¬ EmptySearch img1 img2) :
    (∀ x y, InSearchRange img1 img2 x y →
      ImageMatchSubImage img1 x y img2 = some 0 ∨ ImageMatchSubImage img1 x y img2 = some 1) ∨
    (InSearchRange img1 img2 0 0 ∧ ImageMatchSubImage img1 0 0 img2 = some 1) := by
  by_cases hpos : 0 < img2.width ∧ 0 < img2.height
  · left
    intro x y hr
    rcases match_in_range (wf_sized h1) (wf_sized h2) hpos.1 hpos.2 hr with ⟨h, -⟩ | ⟨h, -⟩
    · exact Or.inr h
    · exact Or.inl h
  · have hw2 := h2.1
    have hh2 := h2.2.1
    by_cases hfit : img2.width ≤ img1.width ∧ img2.height ≤ img1.height
    · right
      have hbig : 0 < img1.width ∧ 0 < img1.height := by
        have hw1 := h1.1
        have hh1 := h1.2.1
        unfold EmptySearch at hne
        by_contra hcon
        apply hne
        refine ⟨by omega, by omega, hfit.1, hfit.2⟩
      have hr : InSearchRange img1 img2 0 0 := by unfold InSearchRange; omega
      refine ⟨hr, ?_⟩
      rcases @match_spec img1 img2 (wf_sized h1) (wf_sized h2) 0 0
          ((validPos_iff _ _ _).2 (by omega)) ((validRect_iff _ _ _ _ _).2 (by omega))
        with ⟨h, -⟩ | ⟨-, cx, cy, hv, -⟩
      · exact h
      · rw [validPos_iff] at hv; omega
    · left
      intro x y hr
      unfold InSearchRange at hr
      omega

/-! # The claims -/

/-- Where the search does not abort, that is for well-formed images outside the
pairs of `EmptySearch`, `ImageLocateSubImage` is the first-matching-anchor
search.  It reports a match
at `(x,y)` if and only if `(x,y)` is the first position, in row-major order,
of the range `0 <= y <= height1-height2`, `0 <= x <= width1-width2` at which
`ImageMatchSubImage` returns 1; it reports no match, leaving `(*px,*py)`
untouched, if and only if no position of the range matches; and it always
reports one or the other. -/
theorem locate_is_first_anchor_search (img1 img2 : Image) (px py : Int)
    (h1 : img1.WF) (h2 : img2.WF) (hne : ¬ EmptySearch img1 img2) :
    (∀ x y, ImageLocateSubImage img1 px py img2 = some (1, x, y) ↔
      (InSearchRange img1 img2 x y ∧ ImageMatchSubImage img1 x y img2 = some 1 ∧
        ∀ x' y', InSearchRange img1 img2 x' y' → ScannedBefore x' y' x y →
          ImageMatchSubImage img1 x' y' img2 ≠ some 1)) ∧
    (ImageLocateSubImage img1 px py img2 = some (0, px, py) ↔
      ∀ x y, InSearchRange img1 img2 x y → ImageMatchSubImage img1 x y img2 ≠ some 1) ∧
    (ImageLocateSubImage img1 px py img2 = some (0, px, py) ∨
      ∃ x y, ImageLocateSubImage img1 px py img2 = some (1, x, y)) := by
  have hsafe := search_safe h1 h2 hne
  have hcases := locate_cases img1 px py img2
  refine ⟨?_, ?_, ?_⟩
  · intro x y
    constructor
    · intro hloc
      rcases hcases with ⟨h, -⟩ | ⟨x0, y0, hr0, hearly0, ⟨hm, h⟩ | ⟨-, h⟩⟩
      · rw [h] at hloc; simp at hloc
      · rw [h] at hloc
        simp only [Option.some.injEq, Prod.mk.injEq, true_and] at hloc
        obtain ⟨rfl, rfl⟩ := hloc
        refine ⟨hr0, hm, ?_⟩
        intro x' y' hr hb
        rw [hearly0 x' y' hr hb]; simp
      · rw [h] at hloc; simp at hloc
    · rintro ⟨hr, hm, hearly⟩
      rcases hsafe with hA | ⟨hr00, hm00⟩
      · apply locate_first px py hr hm
        intro x' y' hr' hb
        rcases hA x' y' hr' with h | h
        · exact h
        · exact absurd h (hearly x' y' hr' hb)
      · have hxy : x = 0 ∧ y = 0 := by
          rcases scan_trichotomy 0 0 x y with hb | hb | ⟨hx, hy⟩
          · exact absurd hm00 (hearly 0 0 hr00 hb)
          · unfold ScannedBefore at hb; unfold InSearchRange at hr; omega
          · exact ⟨hx.symm, hy.symm⟩
        obtain ⟨rfl, rfl⟩ := hxy
        apply locate_first px py hr hm
        intro x' y' hr' hb
        unfold ScannedBefore at hb; unfold InSearchRange at hr'; omega
  · constructor
    · intro hloc x y hr
      rcases hcases with ⟨-, hall⟩ | ⟨x0, y0, -, -, ⟨-, h⟩ | ⟨-, h⟩⟩
      · rw [hall x y hr]; simp
      · rw [h] at hloc; simp at hloc
      · rw [h] at hloc; simp at hloc
    · intro hall
      rcases hsafe with hA | ⟨hr00, hm00⟩
      · apply locate_absent px py
        intro x y hr
        rcases hA x y hr with h | h
        · exact h
        · exact absurd h (hall x y hr)
      · exact absurd hm00 (hall 0 0 hr00)
  · rcases hcases with ⟨h, -⟩ | ⟨x0, y0, hr0, hearly0, ⟨-, h⟩ | ⟨hm, -⟩⟩
    · exact Or.inl h
    · exact Or.inr ⟨x0, y0, h⟩
    · exfalso
      rcases hsafe with hA | ⟨hr00, hm00⟩
      · rcases hA x0 y0 hr0 with h | h <;> rw [hm] at h <;> simp at h
      · rcases scan_trichotomy 0 0 x0 y0 with hb | hb | ⟨hx, hy⟩
        · have := hearly0 0 0 hr00 hb
          rw [hm00] at this; simp at this
        · unfold ScannedBefore at hb; unfold InSearchRange at hr0; omega
        · rw [← hx, ← hy, hm00] at hm; simp at hm

/-- Instance of the first-matching-anchor search on the 3x3 image and its
lower-right 2x2 corner. -/
theorem locate_is_first_anchor_search_witness :
    sample3x3.WF ∧ corner2x2.WF ∧ ¬ EmptySearch sample3x3 corner2x2 ∧
    ((∀ x y, ImageLocateSubImage sample3x3 7 7 corner2x2 = some (1, x, y) ↔
      (InSearchRange sample3x3 corner2x2 x y ∧
        ImageMatchSubImage sample3x3 x y corner2x2 = some 1 ∧
        ∀ x' y', InSearchRange sample3x3 corner2x2 x' y' → ScannedBefore x' y' x y →
          ImageMatchSubImage sample3x3 x' y' corner2x2 ≠ some 1)) ∧
    (ImageLocateSubImage sample3x3 7 7 corner2x2 = some (0, 7, 7) ↔
      ∀ x y, InSearchRange sample3x3 corner2x2 x y →
        ImageMatchSubImage sample3x3 x y corner2x2 ≠ some 1) ∧
    (ImageLocateSubImage sample3x3 7 7 corner2x2 = some (0, 7, 7) ∨
      ∃ x y, ImageLocateSubImage sample3x3 7 7 corner2x2 = some (1, x, y))) :=
  ⟨by unfold Image.WF; decide, by unfold Image.WF; decide, by unfold EmptySearch; decide,
    locate_is_first_anchor_search sample3x3 corner2x2 7 7 (by unfold Image.WF; decide)
      (by unfold Image.WF; decide) (by unfold EmptySearch; decide)⟩

/-- C1: `ImageLocateSubImage` is not the first-matching-anchor search on two
empty images.  No position of the search range is one where
`ImageMatchSubImage` returns 1, so the search should return 0 and leave
`(*px,*py)` untouched; instead its loop calls `ImageMatchSubImage` at the
anchor `(0,0)`, which violates the `ImageValidPos` assertion of the callee, and
the search aborts without reporting anything. -/
theorem locate_aborts_on_empty_images :
    emptyImage.WF ∧
    (∀ x y, InSearchRange emptyImage emptyImage x y →
      ImageMatchSubImage emptyImage x y emptyImage ≠ some 1) ∧
    ImageMatchSubImage emptyImage 0 0 emptyImage = none ∧
    ImageLocateSubImage emptyImage 7 7 emptyImage = none ∧
    ¬ (ImageLocateSubImage emptyImage 7 7 emptyImage = some (0, 7, 7) ↔
      ∀ x y, InSearchRange emptyImage emptyImage x y →
        ImageMatchSubImage emptyImage x y emptyImage ≠ some 1) := by
  have hall : ∀ x y, InSearchRange emptyImage emptyImage x y →
      ImageMatchSubImage emptyImage x y emptyImage ≠ some 1 := by
    intro x y hr
    have hx : x = 0 := by
      have := hr.2; simp only [emptyImage] at this; omega
    have hy : y = 0 := by
      have := hr.1; simp only [emptyImage] at this; omega
    subst hx hy
    decide
  refine ⟨by unfold Image.WF; decide, hall, by decide, by decide, ?_⟩
  intro hiff
  have := hiff.2 hall
  revert this
  decide

/-- C2: for a well-formed `img1` and a valid rectangle `(x0,y0,w,h)` with
`w >= 1` and `h >= 1`, the crop exists and `ImageLocateSubImage` finds it: it
reports a match at a position `(x,y)` that is `(x0,y0)` or precedes it in
row-major order, and `(x,y)` is a true match: `ImageMatchSubImage` returns 1
there, and every sample of the crop equals the sample of `img1` at the
corresponding offset from `(x,y)`. -/
theorem locate_finds_crop (img1 : Image) (x0 y0 w h px py : Int) (h1 : img1.WF)
    (hw : 1 ≤ w) (hh : 1 ≤ h) (hrect : ImageValidRect img1 x0 y0 w h = true) :
    ∃ c, ImageCrop img1 x0 y0 w h = some c ∧
      ∃ x y, ImageLocateSubImage img1 px py c = some (1, x, y) ∧
        ((x = x0 ∧ y = y0) ∨ ScannedBefore x y x0 y0) ∧
        ImageMatchSubImage img1 x y c = some 1 ∧
        ∀ cx cy, ImageValidPos c cx cy = true →
          ∃ v, ImageGetPixel c cx cy = some v ∧
            ImageGetPixel img1 (x + cx) (y + cy) = some v := by
  obtain ⟨c, hc, hcwf, hcw, hch, -, hpixc⟩ := crop_spec h1 (by omega) (by omega) hrect
  have hrect' := (validRect_iff _ _ _ _ _).1 hrect
  have hr0 : InSearchRange img1 c x0 y0 := by
    unfold InSearchRange; rw [hcw, hch]; omega
  have hm0 : ImageMatchSubImage img1 x0 y0 c = some 1 := by
    rcases match_in_range (wf_sized h1) (wf_sized hcwf) (by omega) (by omega) hr0
      with ⟨h, -⟩ | ⟨-, cx, cy, hv, hne⟩
    · exact h
    · exfalso
      apply hne
      rw [validPos_iff, hcw, hch] at hv
      have := (hpixc cx cy hv.1 hv.2).1
      simp [pix, this]
  refine ⟨c, hc, ?_⟩
  rcases locate_cases img1 px py c with ⟨-, hall⟩ | ⟨x, y, hr, hearly, ⟨hm, hloc⟩ | ⟨hm, -⟩⟩
  · have := hall x0 y0 hr0
    rw [hm0] at this; simp at this
  · refine ⟨x, y, hloc, ?_, hm, ?_⟩
    · rcases scan_trichotomy x y x0 y0 with hb | hb | hb
      · exact Or.inr hb
      · have := hearly x0 y0 hr0 hb
        rw [hm0] at this; simp at this
      · exact Or.inl hb
    · intro cx cy hv
      have hv' := (validPos_iff _ _ _).1 hv
      have hva : ImageValidPos img1 (x + cx) (y + cy) = true := by
        unfold InSearchRange at hr
        rw [validPos_iff]; omega
      refine ⟨pix c cx cy, getPixel_valid (wf_sized hcwf) hv, ?_⟩
      rcases match_in_range (wf_sized h1) (wf_sized hcwf) (by omega) (by omega) hr
        with ⟨-, heq⟩ | ⟨h, -⟩
      · rw [← heq cx cy hv]; exact getPixel_valid (wf_sized h1) hva
      · rw [hm] at h; simp at h
  · exfalso
    rcases match_in_range (wf_sized h1) (wf_sized hcwf) (by omega) (by omega) hr
      with ⟨h, -⟩ | ⟨h, -⟩ <;> rw [hm] at h <;> simp at h

/-- Witness for C2: the 2x2 rectangle at `(1,1)` of the 3x3 image. -/
theorem locate_finds_crop_witness :
    sample3x3.WF ∧ ImageValidRect sample3x3 1 1 2 2 = true ∧
    ∃ c, ImageCrop sample3x3 1 1 2 2 = some c ∧
      ∃ x y, ImageLocateSubImage sample3x3 7 7 c = some (1, x, y) ∧
        ((x = 1 ∧ y = 1) ∨ ScannedBefore x y 1 1) ∧
        ImageMatchSubImage sample3x3 x y c = some 1 ∧
        ∀ cx cy, ImageValidPos c cx cy = true →
          ∃ v, ImageGetPixel c cx cy = some v ∧
            ImageGetPixel sample3x3 (x + cx) (y + cy) = some v :=
  ⟨by unfold Image.WF; decide, by decide,
    locate_finds_crop sample3x3 1 1 2 2 7 7 (by unfold Image.WF; decide) (by decide)
      (by decide) (by decide)⟩

/-- C3: when `img2` holds a sample value `v` that occurs nowhere in `img1`,
`ImageLocateSubImage` returns 0 and `(*px,*py)` keep the values `(px,py)` they
had before the call. -/
theorem locate_no_match_on_absent_sample (img1 img2 : Image) (px py : Int) (h1 : img1.WF) (h2 : img2.WF)
    (hv : ∃ cx cy v, ImageGetPixel img2 cx cy = some v ∧
      ∀ x y, ImageGetPixel img1 x y ≠ some v) :
    ImageLocateSubImage img1 px py img2 = some (0, px, py) := by
  obtain ⟨cx, cy, v, hget, hnot⟩ := hv
  have hvalid := getPixel_some_valid hget
  have hvalid' := (validPos_iff _ _ _).1 hvalid
  have hpix2 : pix img2 cx cy = v := by simp [pix, hget]
  apply locate_absent
  intro x y hr
  rcases match_in_range (wf_sized h1) (wf_sized h2) (by omega) (by omega) hr with ⟨-, hall⟩ | ⟨h, -⟩
  · exfalso
    have heq := hall cx cy hvalid
    have hva : ImageValidPos img1 (x + cx) (y + cy) = true := by
      unfold InSearchRange at hr
      rw [validPos_iff]; omega
    have := getPixel_valid (wf_sized h1) hva
    rw [heq, hpix2] at this
    exact hnot _ _ this
  · exact h

/-- Witness for C3: the sample 77 of the 1x1 image occurs nowhere in the 3x3
image. -/
theorem locate_no_match_on_absent_sample_witness :
    sample3x3.WF ∧ alien1x1.WF ∧
    (∃ cx cy v, ImageGetPixel alien1x1 cx cy = some v ∧
      ∀ x y, ImageGetPixel sample3x3 x y ≠ some v) ∧
    ImageLocateSubImage sample3x3 7 7 alien1x1 = some (0, 7, 7) :=
  have hv : ∃ cx cy v, ImageGetPixel alien1x1 cx cy = some v ∧
      ∀ x y, ImageGetPixel sample3x3 x y ≠ some v := by
    refine ⟨0, 0, 77, by decide, ?_⟩
    intro x y hget
    have hvalid := (validPos_iff _ _ _).1 (getPixel_some_valid hget)
    simp only [sample3x3] at hvalid
    have hx : x = 0 ∨ x = 1 ∨ x = 2 := by omega
    have hy : y = 0 ∨ y = 1 ∨ y = 2 := by omega
    rcases hx with rfl | rfl | rfl <;> rcases hy with rfl | rfl | rfl <;> revert hget <;> decide
  ⟨by unfold Image.WF; decide, by unfold Image.WF; decide, hv,
    locate_no_match_on_absent_sample sample3x3 alien1x1 7 7 (by unfold Image.WF; decide)
      (by unfold Image.WF; decide) hv⟩

/-- C4: crop/paste round trip.  For a well-formed `img` and a valid rectangle
`(x,y,w,h)` with `w >= 0` and `h >= 0`, the crop exists and pasting it back at
`(x,y)` yields `img` itself: every pixel, inside and outside the rectangle,
keeps its original value. -/
theorem crop_paste_roundtrip (img : Image) (x y w h : Int) (hwf : img.WF)
    (hw : 0 ≤ w) (hh : 0 ≤ h) (hrect : ImageValidRect img x y w h = true) :
    ∃ c, ImageCrop img x y w h = some c ∧ ImagePaste img x y c = some img := by
  obtain ⟨c, hc, hcwf, hcw, hch, -, hpixc⟩ := crop_spec hwf hw hh hrect
  have hrect2 : ImageValidRect img x y c.width c.height = true := by rw [hcw, hch]; exact hrect
  obtain ⟨r, hr, hshape, hin, hout⟩ := paste_spec hwf hcwf hrect2
  refine ⟨c, hc, ?_⟩
  rw [hr]
  congr 1
  apply image_ext (sameShape_sized hshape (wf_sized hwf)) (by rw [hshape.1]; exact hwf.1) hshape
  intro i j _
  by_cases hfoot : (x ≤ i ∧ i < x + c.width) ∧ (y ≤ j ∧ j < y + c.height)
  · have hcv : ImageValidPos c (i - x) (j - y) = true := by rw [validPos_iff]; omega
    have h1 := hin (i - x) (j - y) hcv
    rw [hcw, hch] at hfoot
    have h2 := hpixc (i - x) (j - y) (by omega) (by omega)
    have hi : x + (i - x) = i := by ring
    have hj : y + (j - y) = j := by ring
    rw [hi, hj] at h1 h2
    rw [h1, h2.1, h2.2]
  · exact hout i j hfoot

/-- Witness for C4: the 2x2 rectangle at `(1,1)` of the 3x3 image. -/
theorem crop_paste_roundtrip_witness :
    sample3x3.WF ∧ ImageValidRect sample3x3 1 1 2 2 = true ∧
    ∃ c, ImageCrop sample3x3 1 1 2 2 = some c ∧ ImagePaste sample3x3 1 1 c = some sample3x3 :=
  ⟨by unfold Image.WF; decide, by decide,
    crop_paste_roundtrip sample3x3 1 1 2 2 (by unfold Image.WF; decide) (by decide)
      (by decide) (by decide)⟩

/-- C5: mirroring a well-formed image twice gives the image back: the same
width, height and maxval, and the same sample at every position. -/
theorem mirror_mirror (img : Image) (hwf : img.WF) :
    (ImageMirror img).bind ImageMirror = some img := by
  obtain ⟨r1, hr1, hwf1, hw1, hh1, hm1, hpix1⟩ := mirror_spec hwf
  obtain ⟨r2, hr2, hwf2, hw2, hh2, hm2, hpix2⟩ := mirror_spec hwf1
  rw [hr1, Option.some_bind, hr2]
  congr 1
  have hshape : SameShape r2 img := by
    refine ⟨hw2.trans hw1, hh2.trans hh1, hm2.trans hm1, ?_⟩
    have a := (wf_sized hwf2)
    have b := (wf_sized hwf)
    unfold Sized at a b
    rw [hw2, hh2, hw1, hh1] at a
    omega
  apply image_ext (wf_sized hwf2) hwf2.1 hshape
  intro x y hv
  have hv' := (validPos_iff _ _ _).1 hv
  rw [hw2, hh2, hw1, hh1] at hv'
  have hva : ImageValidPos img (img.width - 1 - x) y = true := by rw [validPos_iff]; omega
  have hvb : ImageValidPos r1 (img.width - 1 - x) y = true := by
    rw [validPos_iff, hw1, hh1]; omega
  have e2 := hpix2 _ _ hvb
  have hx : img.width - 1 - (img.width - 1 - x) = x := by ring
  rw [hw1, hx] at e2
  have hva2 : ImageValidPos img x y = true := by rw [validPos_iff]; omega
  have e3 := hpix1 _ _ hva2
  rw [e2, e3]

/-- Witness for C5 on the non-square 3x2 image. -/
theorem mirror_mirror_witness :
    sample3x2.WF ∧ (ImageMirror sample3x2).bind ImageMirror = some sample3x2 :=
  ⟨by unfold Image.WF; decide, mirror_mirror sample3x2 (by unfold Image.WF; decide)⟩

/-- C6: rotating a well-formed image (square or not) four times in succession
gives the image back: the same width, height and maxval, and the same sample at
every position. -/
theorem rotate_four_times (img : Image) (hwf : img.WF) :
    (((ImageRotate img).bind ImageRotate).bind ImageRotate).bind ImageRotate = some img := by
  obtain ⟨r1, hr1, hwf1, hw1, hh1, hm1, hpix1⟩ := rotate_spec hwf
  obtain ⟨r2, hr2, hwf2, hw2, hh2, hm2, hpix2⟩ := rotate_spec hwf1
  obtain ⟨r3, hr3, hwf3, hw3, hh3, hm3, hpix3⟩ := rotate_spec hwf2
  obtain ⟨r4, hr4, hwf4, hw4, hh4, hm4, hpix4⟩ := rotate_spec hwf3
  rw [hr1, Option.some_bind, hr2, Option.some_bind, hr3, Option.some_bind, hr4]
  congr 1
  have hw4' : r4.width = img.width := by rw [hw4, hh3, hw2, hh1]
  have hh4' : r4.height = img.height := by rw [hh4, hw3, hh2, hw1]
  have hshape : SameShape r4 img := by
    refine ⟨hw4', hh4', by rw [hm4, hm3, hm2, hm1], ?_⟩
    have a := (wf_sized hwf4)
    have b := (wf_sized hwf)
    unfold Sized at a b
    rw [hw4', hh4'] at a
    omega
  apply image_ext (wf_sized hwf4) hwf4.1 hshape
  intro x y hv
  have hv' := (validPos_iff _ _ _).1 hv
  rw [hw4', hh4'] at hv'
  -- the successive images of the position `(x,y)`
  have hv0 : ImageValidPos img x y = true := by rw [validPos_iff]; omega
  have hv1 : ImageValidPos r1 y (img.width - 1 - x) = true := by
    rw [validPos_iff, hw1, hh1]; omega
  have hv2 : ImageValidPos r2 (img.width - 1 - x) (img.height - 1 - y) = true := by
    rw [validPos_iff, hw2, hh2, hw1, hh1]; omega
  have hv3 : ImageValidPos r3 (img.height - 1 - y) x = true := by
    rw [validPos_iff, hw3, hh3, hw2, hh2, hw1, hh1]; omega
  have e1 := hpix1 _ _ hv0
  have e2 := hpix2 _ _ hv1
  have e3 := hpix3 _ _ hv2
  have e4 := hpix4 _ _ hv3
  rw [hw1] at e2
  rw [hw2, hh1] at e3
  rw [hw3, hh2, hw1] at e4
  have hx : img.width - 1 - (img.width - 1 - x) = x := by ring
  have hy : img.height - 1 - (img.height - 1 - y) = y := by ring
  rw [hx] at e3
  rw [hy] at e4
  rw [e4, e3, e2, e1]

/-- Witness for C6 on the non-square 3x2 image. -/
theorem rotate_four_times_witness :
    sample3x2.WF ∧
    (((ImageRotate sample3x2).bind ImageRotate).bind ImageRotate).bind ImageRotate
      = some sample3x2 :=
  ⟨by unfold Image.WF; decide, rotate_four_times sample3x2 (by unfold Image.WF; decide)⟩

/-- The conversion `(uint8)d` of a value `d` with `n <= d < n+1` for a byte `n`
is `n`. -/
theorem castUint8_of_floor {d : ℚ} {n : Nat} (hn : n ≤ 255) (h0 : (n : ℚ) ≤ d)
    (h1 : d < (n : ℚ) + 1) : castUint8 d = some n := by
  have hd : 0 ≤ d := le_trans (Nat.cast_nonneg n) h0
  have hfl : ⌊d⌋ = (n : Int) := by
    rw [Int.floor_eq_iff]
    exact ⟨by exact_mod_cast h0, by exact_mod_cast h1⟩
  simp only [castUint8, truncToInt, if_pos hd, hfl]
  have : (0 : Int) ≤ (n : Int) ∧ (n : Int) ≤ 255 := by omega
  simp [this]

/-- C7: `ImageBlur` does not store the round-half-up mean.  On the 3x3 image
whose nine samples are all 10, with `dx = dy = 1`, the rounded mean of every
window is 10, but the source's expression `(2*sum + count) / 2*count`,
converted to `uint8`, stores 78 at the centre (`94*9 mod 256`), 168 at the
corners (`42*4`) and 122 on the edges (`63*6 mod 256`). -/
theorem blur_stores_scaled_sum :
    ImageBlur flat3x3 1 1 =
      some { flat3x3 with pixel := [168, 122, 168, 122, 78, 122, 168, 122, 168] } ∧
    roundedWindowMean flat3x3 1 1 1 1 = 10 ∧
    (windowPositions flat3x3 1 1 1 1).length = 9 ∧
    roundedWindowMean flat3x3 0 0 1 1 = 10 ∧
    (windowPositions flat3x3 0 0 1 1).length = 4 ∧
    (ImageBlur flat3x3 1 1).bind (fun r => ImageGetPixel r 1 1) = some 78 ∧
    (ImageBlur flat3x3 1 1).bind (fun r => ImageGetPixel r 0 0) = some 168 := by
  decide

/-- C8: `ImageBrighten` can store a sample greater than the image's maxval.
On the 1x1 image of maxval 100 holding 100, the factor 2 stores 200: the
source compares the converted `uint8` with `PixMax`, never with `maxval`. -/
theorem brighten_exceeds_maxval :
    white100.WF ∧
    ImageBrighten white100 2 = some { white100 with pixel := [200] } ∧
    ¬ ((200 : Int) ≤ white100.maxval) := by
  have hc : castUint8 ((100 : ℚ) * 2 + 1 / 2) = some 200 :=
    castUint8_of_floor (by norm_num) (by norm_num) (by norm_num)
  simp only [one_div] at hc
  refine ⟨by unfold Image.WF; decide, ?_, by decide⟩
  simp [ImageBrighten, forLt, forUp, white100, PixMax, hc]

/-- C9: `ImageBlend` can store a sample outside `[0, maxval]`.  Blending the
1x1 image holding 100 into the 1x1 image holding 0, both of maxval 100, with
`alpha = 2` stores `(uint8)(-1*0 + 2*100 + 0.5) = 200`, which is greater than
the maxval of `img1`: the source does not saturate. -/
theorem blend_exceeds_maxval :
    black100.WF ∧ white100.WF ∧
    ImageValidRect black100 0 0 white100.width white100.height = true ∧
    ImageBlend black100 0 0 white100 2 = some { black100 with pixel := [200] } ∧
    (ImageBlend black100 0 0 white100 2).bind (fun r => ImageGetPixel r 0 0) = some 200 ∧
    ¬ ((200 : Int) ≤ black100.maxval) := by
  have hc : castUint8 ((1 - 2) * ((0 : Nat) : ℚ) + 2 * ((100 : Nat) : ℚ) + 1 / 2) = some 200 :=
    castUint8_of_floor (by norm_num) (by norm_num) (by norm_num)
  have hg1 : ImageGetPixel black100 0 0 = some 0 := by decide
  have hg2 : ImageGetPixel white100 0 0 = some 100 := by decide
  have hs : ImageSetPixel black100 0 0 200 = some { black100 with pixel := [200] } := by decide
  have hb : ImageBlend black100 0 0 white100 2 = some { black100 with pixel := [200] } := by
    have hrect : ImageValidRect black100 0 0 white100.width white100.height = true := by decide
    unfold ImageBlend
    rw [if_pos hrect]
    have hh : white100.height = 1 := rfl
    have hw : white100.width = 1 := rfl
    simp only [hh, hw, forLt, forUp, Int.sub_zero, Int.toNat_one, Int.add_zero,
      Option.bind_eq_bind, hg1, hg2, Option.some_bind, hc, hs]
  refine ⟨by unfold Image.WF; decide, by unfold Image.WF; decide, by decide, hb, ?_, by decide⟩
  rw [hb]
  decide

/-- C10: the sample `ImageBlend` stores is not the clamped value of the
specification.  In the blend of C9 the specification asks for
`clamp(floor(200.5), 0, 100) = 100`, and the source stores 200. -/
theorem blend_is_not_clamped :
    (ImageBlend black100 0 0 white100 2).bind (fun r => ImageGetPixel r 0 0) = some 200 ∧
    ImageGetPixel black100 0 0 = some 0 ∧ ImageGetPixel white100 0 0 = some 100 ∧
    blendSpec 2 0 100 black100.maxval = 100 := by
  have hc : castUint8 ((1 - 2) * ((0 : Nat) : ℚ) + 2 * ((100 : Nat) : ℚ) + 1 / 2) = some 200 :=
    castUint8_of_floor (by norm_num) (by norm_num) (by norm_num)
  have hg1 : ImageGetPixel black100 0 0 = some 0 := by decide
  have hg2 : ImageGetPixel white100 0 0 = some 100 := by decide
  have hs : ImageSetPixel black100 0 0 200 = some { black100 with pixel := [200] } := by decide
  have hb : ImageBlend black100 0 0 white100 2 = some { black100 with pixel := [200] } := by
    have hrect : ImageValidRect black100 0 0 white100.width white100.height = true := by decide
    unfold ImageBlend
    rw [if_pos hrect]
    have hh : white100.height = 1 := rfl
    have hw : white100.width = 1 := rfl
    simp only [hh, hw, forLt, forUp, Int.sub_zero, Int.toNat_one, Int.add_zero,
      Option.bind_eq_bind, hg1, hg2, Option.some_bind, hc, hs]
  have hfl : ⌊(1 - 2) * ((0 : Nat) : ℚ) + 2 * ((100 : Nat) : ℚ) + 1 / 2⌋ = 200 := by
    rw [Int.floor_eq_iff]; constructor <;> norm_num
  refine ⟨by rw [hb]; decide, hg1, hg2, ?_⟩
  unfold blendSpec
  rw [hfl]
  decide

/-- C11 (as amended): for a well-formed `img` and a valid rectangle
`(x,y,w,h)` with `w >= 0` and `h >= 0`, `ImageCrop` completes (no assertion
fails) and returns an image of width `w` and height `h` whose sample at every
`(cx,cy)` with `0 <= cx < w`, `0 <= cy < h` is the sample of `img` at
`(x+cx, y+cy)`. -/
theorem crop_copies_rectangle (img : Image) (x y w h : Int) (hwf : img.WF)
    (hw : 0 ≤ w) (hh : 0 ≤ h) (hrect : ImageValidRect img x y w h = true) :
    ∃ r, ImageCrop img x y w h = some r ∧ r.width = w ∧ r.height = h ∧
      ∀ cx cy, (0 ≤ cx ∧ cx < w) → (0 ≤ cy ∧ cy < h) →
        ∃ v, ImageGetPixel r cx cy = some v ∧ ImageGetPixel img (x + cx) (y + cy) = some v := by
  obtain ⟨r, hr, -, hrw, hrh, -, hpix⟩ := crop_spec hwf hw hh hrect
  refine ⟨r, hr, hrw, hrh, ?_⟩
  intro cx cy hcx hcy
  exact ⟨pix img (x + cx) (y + cy), (hpix cx cy hcx hcy).1, (hpix cx cy hcx hcy).2⟩

/-- Witness for C11 (as amended): the 2x2 rectangle at `(1,1)` of the 3x3
image. -/
theorem crop_copies_rectangle_witness :
    sample3x3.WF ∧ ImageValidRect sample3x3 1 1 2 2 = true ∧
    ∃ r, ImageCrop sample3x3 1 1 2 2 = some r ∧ r.width = 2 ∧ r.height = 2 ∧
      ∀ cx cy, (0 ≤ cx ∧ cx < 2) → (0 ≤ cy ∧ cy < 2) →
        ∃ v, ImageGetPixel r cx cy = some v ∧
          ImageGetPixel sample3x3 (1 + cx) (1 + cy) = some v :=
  ⟨by unfold Image.WF; decide, by decide,
    crop_copies_rectangle sample3x3 1 1 2 2 (by unfold Image.WF; decide) (by decide)
      (by decide) (by decide)⟩

/-- C11 (as stated) fails for a rectangle of negative width: `(1,1,-1,1)`
passes `ImageValidRect` on the 3x3 image, and `ImageCrop` then violates the
assertion `width >= 0` of `ImageCreate`. -/
theorem crop_negative_width_aborts :
    sample3x3.WF ∧ ImageValidRect sample3x3 1 1 (-1) 1 = true ∧
    ImageCreate (-1) 1 (sample3x3.maxval % 256) = none ∧
    ImageCrop sample3x3 1 1 (-1) 1 = none := by
  refine ⟨by unfold Image.WF; decide, by decide, by decide, by decide⟩

/-- C12: for well-formed `img1` and `img2` with
`ImageValidRect(img1,x,y,img2.width,img2.height)`, `ImagePaste` completes; the
result holds the sample of `img2` at `(cx,cy)` at every `(x+cx,y+cy)`, keeps
every sample outside that region, and keeps width, height and maxval. -/
theorem paste_overwrites_region (img1 img2 : Image) (x y : Int) (h1 : img1.WF)
    (h2 : img2.WF) (hrect : ImageValidRect img1 x y img2.width img2.height = true) :
    ∃ r, ImagePaste img1 x y img2 = some r ∧
      (r.width = img1.width ∧ r.height = img1.height ∧ r.maxval = img1.maxval) ∧
      (∀ cx cy, ImageValidPos img2 cx cy = true →
        ∃ v, ImageGetPixel img2 cx cy = some v ∧ ImageGetPixel r (x + cx) (y + cy) = some v) ∧
      (∀ i j, ImageValidPos img1 i j = true →
        ¬ ((x ≤ i ∧ i < x + img2.width) ∧ (y ≤ j ∧ j < y + img2.height)) →
        ∃ v, ImageGetPixel img1 i j = some v ∧ ImageGetPixel r i j = some v) := by
  obtain ⟨r, hr, hshape, hin, hout⟩ := paste_spec h1 h2 hrect
  refine ⟨r, hr, ⟨hshape.1, hshape.2.1, hshape.2.2.1⟩, ?_, ?_⟩
  · intro cx cy hv
    refine ⟨pix img2 cx cy, getPixel_valid (wf_sized h2) hv, ?_⟩
    rw [hin cx cy hv]; exact getPixel_valid (wf_sized h2) hv
  · intro i j hv hnot
    refine ⟨pix img1 i j, getPixel_valid (wf_sized h1) hv, ?_⟩
    rw [hout i j hnot]; exact getPixel_valid (wf_sized h1) hv

/-- Witness for C12: pasting the 2x2 image at `(1,0)` of the 3x3 image. -/
theorem paste_overwrites_region_witness :
    sample3x3.WF ∧ sample2x2.WF ∧
    ImageValidRect sample3x3 1 0 sample2x2.width sample2x2.height = true ∧
    ∃ r, ImagePaste sample3x3 1 0 sample2x2 = some r ∧
      (r.width = sample3x3.width ∧ r.height = sample3x3.height ∧
        r.maxval = sample3x3.maxval) ∧
      (∀ cx cy, ImageValidPos sample2x2 cx cy = true →
        ∃ v, ImageGetPixel sample2x2 cx cy = some v ∧
          ImageGetPixel r (1 + cx) (0 + cy) = some v) ∧
      (∀ i j, ImageValidPos sample3x3 i j = true →
        ¬ ((1 ≤ i ∧ i < 1 + sample2x2.width) ∧ (0 ≤ j ∧ j < 0 + sample2x2.height)) →
        ∃ v, ImageGetPixel sample3x3 i j = some v ∧ ImageGetPixel r i j = some v) :=
  ⟨by unfold Image.WF; decide, by unfold Image.WF; decide, by decide,
    paste_overwrites_region sample3x3 sample2x2 1 0 (by unfold Image.WF; decide)
      (by unfold Image.WF; decide) (by decide)⟩

/-- C13: for a well-formed image of width `W` and height `H`, `ImageRotate`
returns an image of width `H` and height `W` whose sample at `(y, W-1-x)` is
the sample of `img` at `(x,y)`, for every valid position `(x,y)` of `img`. -/
theorem rotate_maps_positions (img : Image) (hwf : img.WF) :
    ∃ r, ImageRotate img = some r ∧ r.width = img.height ∧ r.height = img.width ∧
      ∀ x y, ImageValidPos img x y = true →
        ∃ v, ImageGetPixel img x y = some v ∧
          ImageGetPixel r y (img.width - 1 - x) = some v := by
  obtain ⟨r, hr, -, hrw, hrh, -, hpix⟩ := rotate_spec hwf
  refine ⟨r, hr, hrw, hrh, ?_⟩
  intro x y hv
  refine ⟨pix img x y, getPixel_valid (wf_sized hwf) hv, ?_⟩
  rw [hpix x y hv]; exact getPixel_valid (wf_sized hwf) hv

/-- Witness for C13 on the non-square 3x2 image. -/
theorem rotate_maps_positions_witness :
    sample3x2.WF ∧
    ∃ r, ImageRotate sample3x2 = some r ∧ r.width = sample3x2.height ∧
      r.height = sample3x2.width ∧
      ∀ x y, ImageValidPos sample3x2 x y = true →
        ∃ v, ImageGetPixel sample3x2 x y = some v ∧
          ImageGetPixel r y (sample3x2.width - 1 - x) = some v :=
  ⟨by unfold Image.WF; decide, rotate_maps_positions sample3x2 (by unfold Image.WF; decide)⟩

/-- C14: for a well-formed image of width `W`, `ImageMirror` returns an image
of the same width and height whose sample at `(W-1-x, y)` is the sample of
`img` at `(x,y)`, for every valid position `(x,y)` of `img`. -/
theorem mirror_maps_positions (img : Image) (hwf : img.WF) :
    ∃ r, ImageMirror img = some r ∧ r.width = img.width ∧ r.height = img.height ∧
      ∀ x y, ImageValidPos img x y = true →
        ∃ v, ImageGetPixel img x y = some v ∧
          ImageGetPixel r (img.width - 1 - x) y = some v := by
  obtain ⟨r, hr, -, hrw, hrh, -, hpix⟩ := mirror_spec hwf
  refine ⟨r, hr, hrw, hrh, ?_⟩
  intro x y hv
  refine ⟨pix img x y, getPixel_valid (wf_sized hwf) hv, ?_⟩
  rw [hpix x y hv]; exact getPixel_valid (wf_sized hwf) hv

/-- Witness for C14 on the non-square 3x2 image. -/
theorem mirror_maps_positions_witness :
    sample3x2.WF ∧
    ∃ r, ImageMirror sample3x2 = some r ∧ r.width = sample3x2.width ∧
      r.height = sample3x2.height ∧
      ∀ x y, ImageValidPos sample3x2 x y = true →
        ∃ v, ImageGetPixel sample3x2 x y = some v ∧
          ImageGetPixel r (sample3x2.width - 1 - x) y = some v :=
  ⟨by unfold Image.WF; decide, mirror_maps_positions sample3x2 (by unfold Image.WF; decide)⟩

/-- C15 (as amended): for well-formed `img1` and `img2`, a valid position
`(x,y)` of `img1` and `img2` fitting inside `img1` at `(x,y)`,
`ImageMatchSubImage` returns 1 if and only if the sample of `img1` at
`(x+cx,y+cy)` equals the sample of `img2` at `(cx,cy)` for every position
`(cx,cy)` of `img2`, and returns 0 otherwise. -/
theorem match_iff_all_samples_equal (img1 img2 : Image) (x y : Int) (h1 : img1.WF)
    (h2 : img2.WF) (hpos : ImageValidPos img1 x y = true)
    (hrect : ImageValidRect img1 x y img2.width img2.height = true) :
    (ImageMatchSubImage img1 x y img2 = some 1 ↔
      ∀ cx cy, ImageValidPos img2 cx cy = true →
        ImageGetPixel img1 (x + cx) (y + cy) = ImageGetPixel img2 cx cy) ∧
    (ImageMatchSubImage img1 x y img2 = some 1 ∨ ImageMatchSubImage img1 x y img2 = some 0) := by
  have hrect' := (validRect_iff _ _ _ _ _).1 hrect
  have hget : ∀ cx cy, ImageValidPos img2 cx cy = true →
      ImageGetPixel img1 (x + cx) (y + cy) = some (pix img1 (x + cx) (y + cy)) ∧
      ImageGetPixel img2 cx cy = some (pix img2 cx cy) := by
    intro cx cy hv
    have hv' := (validPos_iff _ _ _).1 hv
    exact ⟨getPixel_valid (wf_sized h1) ((validPos_iff _ _ _).2 (by omega)),
      getPixel_valid (wf_sized h2) hv⟩
  rcases match_spec (wf_sized h1) (wf_sized h2) hpos hrect with ⟨hm, hall⟩ | ⟨hm, cx, cy, hv, hne⟩
  · refine ⟨⟨fun _ cx cy hv => ?_, fun _ => hm⟩, Or.inl hm⟩
    rw [(hget cx cy hv).1, (hget cx cy hv).2, hall cx cy hv]
  · refine ⟨⟨fun h => ?_, fun hall => ?_⟩, Or.inr hm⟩
    · rw [hm] at h; simp at h
    · exfalso
      have := hall cx cy hv
      rw [(hget cx cy hv).1, (hget cx cy hv).2] at this
      exact hne (Option.some.inj this)

/-- Witness for C15 (as amended): the 2x2 corner at `(1,1)` of the 3x3 image. -/
theorem match_iff_all_samples_equal_witness :
    sample3x3.WF ∧ corner2x2.WF ∧ ImageValidPos sample3x3 1 1 = true ∧
    ImageValidRect sample3x3 1 1 corner2x2.width corner2x2.height = true ∧
    ((ImageMatchSubImage sample3x3 1 1 corner2x2 = some 1 ↔
      ∀ cx cy, ImageValidPos corner2x2 cx cy = true →
        ImageGetPixel sample3x3 (1 + cx) (1 + cy) = ImageGetPixel corner2x2 cx cy) ∧
    (ImageMatchSubImage sample3x3 1 1 corner2x2 = some 1 ∨
      ImageMatchSubImage sample3x3 1 1 corner2x2 = some 0)) :=
  ⟨by unfold Image.WF; decide, by unfold Image.WF; decide, by decide, by decide,
    match_iff_all_samples_equal sample3x3 corner2x2 1 1 (by unfold Image.WF; decide)
      (by unfold Image.WF; decide) (by decide) (by decide)⟩

/-- C15 (as stated) fails for an empty `img2` at the anchor `(3,3)` of the 3x3
image: the empty image fits there (`ImageValidRect` holds) and every one of
its positions matches, there being none, but the call violates the assertion
`ImageValidPos(img1,x,y)` and returns nothing. -/
theorem match_aborts_at_border_anchor :
    sample3x3.WF ∧ emptyImage.WF ∧
    ImageValidRect sample3x3 3 3 emptyImage.width emptyImage.height = true ∧
    (∀ cx cy, ImageValidPos emptyImage cx cy = true →
      ImageGetPixel sample3x3 (3 + cx) (3 + cy) = ImageGetPixel emptyImage cx cy) ∧
    ImageValidPos sample3x3 3 3 = false ∧
    ImageMatchSubImage sample3x3 3 3 emptyImage = none := by
  refine ⟨by unfold Image.WF; decide, by unfold Image.WF; decide, by decide, ?_, by decide,
    by decide⟩
  intro cx cy hv
  rw [validPos_iff] at hv
  simp only [emptyImage] at hv
  omega

/-- C16 (as amended): a rectangle accepted by `ImageValidRect` has all its
positions inside the image; and for `w >= 1` and `h >= 1`, `ImageValidRect`
holds if and only if every position `(i,j)` with `x <= i < x+w` and
`y <= j < y+h` satisfies `ImageValidPos`. -/
theorem validRect_iff_positions_valid (img : Image) (x y w h : Int) :
    (ImageValidRect img x y w h = true →
      ∀ i j, (x ≤ i ∧ i < x + w) → (y ≤ j ∧ j < y + h) → ImageValidPos img i j = true) ∧
    (1 ≤ w → 1 ≤ h →
      (ImageValidRect img x y w h = true ↔
        ∀ i j, (x ≤ i ∧ i < x + w) → (y ≤ j ∧ j < y + h) → ImageValidPos img i j = true)) := by
  have hfwd : ImageValidRect img x y w h = true →
      ∀ i j, (x ≤ i ∧ i < x + w) → (y ≤ j ∧ j < y + h) → ImageValidPos img i j = true := by
    intro hr i j hi hj
    rw [validRect_iff] at hr
    rw [validPos_iff]; omega
  refine ⟨hfwd, fun hw1 hh1 => ⟨hfwd, fun hall => ?_⟩⟩
  have ha := (validPos_iff _ _ _).1 (hall x y (by omega) (by omega))
  have hb := (validPos_iff _ _ _).1 (hall (x + w - 1) (y + h - 1) (by omega) (by omega))
  rw [validRect_iff]; omega

/-- Witness for C16 (as amended): the rectangle `(1,1,2,2)` in the 3x3 image. -/
theorem validRect_iff_positions_valid_witness :
    ((1 : Int) ≤ 2) ∧ ImageValidRect sample3x3 1 1 2 2 = true ∧
    (∀ i j, ((1 : Int) ≤ i ∧ i < 1 + 2) → ((1 : Int) ≤ j ∧ j < 1 + 2) →
      ImageValidPos sample3x3 i j = true) ∧
    (ImageValidRect sample3x3 1 1 2 2 = true ↔
      ∀ i j, ((1 : Int) ≤ i ∧ i < 1 + 2) → ((1 : Int) ≤ j ∧ j < 1 + 2) →
        ImageValidPos sample3x3 i j = true) :=
  ⟨by decide, by decide,
    (validRect_iff_positions_valid sample3x3 1 1 2 2).1 (by decide),
    (validRect_iff_positions_valid sample3x3 1 1 2 2).2 (by decide) (by decide)⟩

/-- C16 (as stated) fails for an empty rectangle outside the image: the
rectangle `(-1,0,0,0)` has no position at all, so each of its positions is
valid in the 3x3 image, yet `ImageValidRect` rejects it. -/
theorem validRect_rejects_empty_rectangle :
    (∀ i j : Int, (-1 ≤ i ∧ i < -1 + 0) → (0 ≤ j ∧ j < 0 + 0) →
      ImageValidPos sample3x3 i j = true) ∧
    ImageValidRect sample3x3 (-1) 0 0 0 = false ∧
    ¬ (ImageValidRect sample3x3 (-1) 0 0 0 = true ↔
      ∀ i j : Int, (-1 ≤ i ∧ i < -1 + 0) → (0 ≤ j ∧ j < 0 + 0) →
        ImageValidPos sample3x3 i j = true) := by
  have hall : ∀ i j : Int, (-1 ≤ i ∧ i < -1 + 0) → (0 ≤ j ∧ j < 0 + 0) →
      ImageValidPos sample3x3 i j = true := by
    intro i j hi hj; omega
  refine ⟨hall, by decide, ?_⟩
  intro hiff
  have := hiff.2 hall
  revert this
  decide

/-- C18: row-major get/set law.  For a well-formed image and a valid position
`(x,y)`, the linear index `y*width + x` computed by `G` lies in
`[0, width*height)`; `ImageSetPixel` succeeds and `ImageGetPixel` then returns
`v` at `(x,y)`; at every other valid position `(x',y')` `ImageGetPixel`
returns the sample it returned before, and the linear index differs. -/
theorem get_set_law (img : Image) (x y : Int) (v : Nat) (hwf : img.WF)
    (hv : ImageValidPos img x y = true) :
    G img x y = some (y * img.width + x) ∧
    (0 ≤ y * img.width + x ∧ y * img.width + x < img.width * img.height) ∧
    ∃ img', ImageSetPixel img x y v = some img' ∧
      ImageGetPixel img' x y = some v ∧
      ∀ x' y', ImageValidPos img x' y' = true → ¬ (x' = x ∧ y' = y) →
        (∃ u, ImageGetPixel img x' y' = some u ∧ ImageGetPixel img' x' y' = some u) ∧
        y' * img.width + x' ≠ y * img.width + x := by
  have hv' := (validPos_iff _ _ _).1 hv
  obtain ⟨img', hset, -, hsame, hother⟩ := setPixel_spec v (wf_sized hwf) hv
  refine ⟨G_valid hv, index_bounds hv'.1.1 hv'.1.2 hv'.2.1 hv'.2.2, img', hset, hsame, ?_⟩
  intro x' y' hvo hne
  have hvo' := (validPos_iff _ _ _).1 hvo
  refine ⟨⟨pix img x' y', getPixel_valid (wf_sized hwf) hvo, ?_⟩, ?_⟩
  · rw [hother x' y' hne]; exact getPixel_valid (wf_sized hwf) hvo
  · intro he
    exact hne (index_inj hvo'.1.1 hvo'.1.2 hv'.1.1 hv'.1.2 he)

/-- Witness for C18: storing 200 at `(1,2)` of the 3x3 image. -/
theorem get_set_law_witness :
    sample3x3.WF ∧ ImageValidPos sample3x3 1 2 = true ∧
    (G sample3x3 1 2 = some (2 * sample3x3.width + 1) ∧
    (0 ≤ 2 * sample3x3.width + 1 ∧
      2 * sample3x3.width + 1 < sample3x3.width * sample3x3.height) ∧
    ∃ img', ImageSetPixel sample3x3 1 2 200 = some img' ∧
      ImageGetPixel img' 1 2 = some 200 ∧
      ∀ x' y', ImageValidPos sample3x3 x' y' = true → ¬ (x' = 1 ∧ y' = 2) →
        (∃ u, ImageGetPixel sample3x3 x' y' = some u ∧ ImageGetPixel img' x' y' = some u) ∧
        y' * sample3x3.width + x' ≠ 2 * sample3x3.width + 1) :=
  ⟨by unfold Image.WF; decide, by decide,
    get_set_law sample3x3 1 2 200 (by unfold Image.WF; decide) (by decide)⟩

/-! ## In-place loops over the pixel array -/

/-- An in-place loop over the whole pixel array that replaces the sample `v`
at each index by `f v` yields the image with the mapped array. -/
theorem pointwise_loop (img : Image) (hs : Sized img) (f : Nat → Nat)
    (body : Int → Image → Option Image)
    (hbody : ∀ (i : Nat) (im : Image) (v : Nat), SameShape im img →
      im.pixel[i]? = some v →
      body (i : Int) im = some { im with pixel := im.pixel.set i (f v) }) :
    forLt 0 (img.width * img.height) body img =
      some { img with pixel := img.pixel.map f } := by
  have hn : 0 ≤ img.width * img.height := by unfold Sized at hs; omega
  obtain ⟨r, hr, hshape, hI⟩ := forLt_zero_spec body (img.width * img.height)
    (fun k im => SameShape im img ∧ ∀ j : Nat, im.pixel[j]? =
      if (j : Int) < k then (img.pixel[j]?).map f else img.pixel[j]?)
    img hn ⟨SameShape.refl img, by
      intro j
      have : ¬ ((j : Int) < 0) := by omega
      simp [this]⟩
    (by
      intro k im hk0 hk ⟨hsh, hI⟩
      have hkn : ((k.toNat : Nat) : Int) = k := Int.toNat_of_nonneg hk0
      have hlt : k.toNat < img.pixel.length := by unfold Sized at hs; omega
      have hcur : im.pixel[k.toNat]? = some (img.pixel[k.toNat]) := by
        rw [hI k.toNat, if_neg (by omega), List.getElem?_eq_getElem hlt]
      have hb := hbody k.toNat im _ hsh hcur
      rw [hkn] at hb
      refine ⟨_, hb, ⟨hsh.1, hsh.2.1, hsh.2.2.1, by simp [hsh.2.2.2]⟩, ?_⟩
      intro j
      simp only [List.getElem?_set]
      by_cases hj : k.toNat = j
      · subst hj
        have h1 : k.toNat < im.pixel.length := by rw [hsh.2.2.2]; exact hlt
        have h2 : ((k.toNat : Nat) : Int) < k + 1 := by omega
        have h4 : (0 : Int) < k + 1 := by omega
        simp [h1, h2, h4, List.getElem?_eq_getElem hlt]
      · have h3 : ((j : Int) < k + 1) ↔ ((j : Int) < k) := by omega
        simp only [if_neg hj, hI j, h3])
  rw [hr]
  have hlist : r.pixel = img.pixel.map f := by
    apply List.ext_getElem?
    intro j
    rw [hI j, List.getElem?_map]
    by_cases hj : (j : Int) < img.width * img.height
    · rw [if_pos hj]
    · rw [if_neg hj]
      have : img.pixel.length ≤ j := by unfold Sized at hs; omega
      rw [List.getElem?_eq_none this]; rfl
  obtain ⟨rw_, rh, rm, rp⟩ := r
  obtain ⟨h1, h2, h3, -⟩ := hshape
  simp only at h1 h2 h3 hlist
  subst h1 h2 h3 hlist
  rfl

/-- Function `ImageThreshold` succeeds on a correctly sized image and maps the
threshold rule over the pixel array. -/
theorem threshold_spec (img : Image) (thr : Nat) (hs : Sized img) :
    ImageThreshold img thr = some { img with pixel :=
      (img.pixel.map fun (v : Nat) => ((if v < thr then (0 : Int) else img.maxval) % 256).toNat) } := by
  unfold ImageThreshold
  apply pointwise_loop img hs
  intro i im v hsh hv
  have hlt : i < im.pixel.length := by
    rcases List.getElem?_eq_some.1 hv with ⟨h, -⟩
    exact h
  simp [hv, hlt, hsh.2.2.1]

/-- Function `ImageNegative` succeeds on a correctly sized image and maps
`v -> (PixMax - v) mod 256` over the pixel array. -/
theorem negative_spec (img : Image) (hs : Sized img) :
    ImageNegative img = some { img with pixel :=
      (img.pixel.map fun (v : Nat) => (((PixMax : Int) - (v : Int)) % 256).toNat) } := by
  unfold ImageNegative
  apply pointwise_loop img hs
  intro i im v hsh hv
  have hlt : i < im.pixel.length := by
    rcases List.getElem?_eq_some.1 hv with ⟨h, -⟩
    exact h
  simp [hv, hlt]

/-- A read returns a member of the pixel array. -/
theorem getPixel_mem {img : Image} {x y : Int} {v : Nat}
    (h : ImageGetPixel img x y = some v) : v ∈ img.pixel := by
  have hv := getPixel_some_valid h
  rw [getPixel_eq_index hv] at h
  exact List.getElem?_mem h

/-- After a store, every sample is the stored level or an old sample. -/
theorem setPixel_mem {img img' : Image} {x y : Int} {v : Nat}
    (h : ImageSetPixel img x y v = some img') :
    ∀ u ∈ img'.pixel, u ∈ img.pixel ∨ u = v := by
  unfold ImageSetPixel at h
  by_cases hv : ImageValidPos img x y = true
  · rw [if_pos hv, G_valid hv] at h
    simp only [Option.some_bind] at h
    by_cases hlt : (y * img.width + x).toNat < img.pixel.length
    · rw [if_pos hlt] at h
      have := Option.some.inj h
      subst this
      intro u hu
      exact List.mem_or_eq_of_mem_set hu
    · rw [if_neg hlt] at h; simp at h
  · rw [if_neg hv] at h; simp at h

/-- A property of the state that every successful iteration preserves holds
after the loop whenever the loop succeeds. -/
theorem forUp_preserves {σ : Type} (body : Int → σ → Option σ) (P : σ → Prop)
    (hbody : ∀ i s s', body i s = some s' → P s → P s') (n : Nat) :
    ∀ (i : Int) (s s' : σ), forUp body n i s = some s' → P s → P s' := by
  induction n with
  | zero =>
    intro i s s' h hP
    simp only [forUp, Option.some.injEq] at h
    subst h; exact hP
  | succ n ih =>
    intro i s s' h hP
    simp only [forUp] at h
    obtain ⟨s1, hb, hrest⟩ := Option.bind_eq_some.1 h
    exact ih (i + 1) s1 s' hrest (hbody i s s1 hb hP)

/-- A successful copying loop nest from `src` keeps every sample below a
bound that holds for the samples of `src` and of the initial target. -/
theorem copy_nest_bounded (src : Image) (m : Int) (hsrc : ∀ v ∈ src.pixel, (v : Int) ≤ m)
    (sx sy tx ty : Int → Int → Int) (W H : Int) (c r : Image)
    (hrun : forLt 0 H (fun y s => forLt 0 W (fun x s =>
      (ImageGetPixel src (sx x y) (sy x y)).bind
        (fun v => ImageSetPixel s (tx x y) (ty x y) v)) s) c = some r)
    (hc : ∀ v ∈ c.pixel, (v : Int) ≤ m) : ∀ v ∈ r.pixel, (v : Int) ≤ m := by
  refine forUp_preserves _ (fun s : Image => ∀ v ∈ s.pixel, (v : Int) ≤ m) ?_ _ _ _ _ hrun hc
  intro y s s' hrow hP
  refine forUp_preserves _ (fun s : Image => ∀ v ∈ s.pixel, (v : Int) ≤ m) ?_ _ _ _ _ hrow hP
  intro x t t' hstep hQ
  obtain ⟨v, hget, hset⟩ := Option.bind_eq_some.1 hstep
  intro u hu
  rcases setPixel_mem hset u hu with h | h
  · exact hQ u h
  · rw [h]; exact hsrc v (getPixel_mem hget)

/-- Function `ImageStats` succeeds on a correctly sized image with at least one
pixel and returns the least and the greatest sample of the pixel array. -/
theorem stats_spec (img : Image) (hs : Sized img) (hpos : 1 ≤ img.width * img.height) :
    ∃ mn mx, ImageStats img = some (mn, mx) ∧ mn ∈ img.pixel ∧ mx ∈ img.pixel ∧
      ∀ s ∈ img.pixel, mn ≤ s ∧ s ≤ mx := by
  have hlen : 1 ≤ img.pixel.length := by unfold Sized at hs; omega
  have hfirst : img.pixel[0]? = some (img.pixel[0]) := List.getElem?_eq_getElem (by omega)
  obtain ⟨mm, hrun, ⟨a, ha, hmin⟩, ⟨b, hb, hmax⟩, hall⟩ := forUp_spec
    (fun i (mm : Nat × Nat) => do
      let p ← img.pixel[i.toNat]?
      if p < mm.1 then some (p, mm.2)
      else if p > mm.2 then some (mm.1, p)
      else some mm)
    (img.width * img.height - 1).toNat
    (fun k mm => (∃ a, a ≤ k ∧ img.pixel[a]? = some mm.1) ∧
      (∃ b, b ≤ k ∧ img.pixel[b]? = some mm.2) ∧
      ∀ j, j ≤ k → ∀ s, img.pixel[j]? = some s → mm.1 ≤ s ∧ s ≤ mm.2)
    1 (img.pixel[0], img.pixel[0])
    ⟨⟨0, le_refl 0, hfirst⟩, ⟨0, le_refl 0, hfirst⟩, by
      intro j hj s hsj
      have : j = 0 := by omega
      subst this
      rw [hfirst] at hsj
      have := Option.some.inj hsj
      simp only at this ⊢
      omega⟩
    (by
      intro k mm hk ⟨⟨a, ha, hmin⟩, ⟨b, hb, hmax⟩, hall⟩
      have hidx : ((1 : Int) + (k : Int)).toNat = k + 1 := by omega
      have hlt : k + 1 < img.pixel.length := by unfold Sized at hs; omega
      have hcur : img.pixel[k + 1]? = some (img.pixel[k + 1]) := List.getElem?_eq_getElem hlt
      have hminmax := hall a ha mm.1 hmin
      have hmaxmax := hall b hb mm.2 hmax
      simp only [hidx, hcur, Option.bind_eq_bind, Option.some_bind]
      by_cases h1 : img.pixel[k + 1] < mm.1
      · refine ⟨(img.pixel[k + 1], mm.2), by simp [h1], ⟨k + 1, le_refl _, hcur⟩,
          ⟨b, by omega, hmax⟩, ?_⟩
        intro j hj s hsj
        rcases Nat.lt_or_ge j (k + 1) with hjk | hjk
        · have := hall j (by omega) s hsj
          simp only; omega
        · have : j = k + 1 := by omega
          subst this
          rw [hcur] at hsj
          have := Option.some.inj hsj
          simp only; omega
      · by_cases h2 : img.pixel[k + 1] > mm.2
        · refine ⟨(mm.1, img.pixel[k + 1]), by simp [h1, h2], ⟨a, by omega, hmin⟩,
            ⟨k + 1, le_refl _, hcur⟩, ?_⟩
          intro j hj s hsj
          rcases Nat.lt_or_ge j (k + 1) with hjk | hjk
          · have := hall j (by omega) s hsj
            simp only; omega
          · have : j = k + 1 := by omega
            subst this
            rw [hcur] at hsj
            have := Option.some.inj hsj
            simp only; omega
        · refine ⟨mm, by simp [h1, h2], ⟨a, by omega, hmin⟩, ⟨b, by omega, hmax⟩, ?_⟩
          intro j hj s hsj
          rcases Nat.lt_or_ge j (k + 1) with hjk | hjk
          · exact hall j (by omega) s hsj
          · have : j = k + 1 := by omega
            subst this
            rw [hcur] at hsj
            have := Option.some.inj hsj
            omega)
  refine ⟨mm.1, mm.2, ?_, List.getElem?_mem hmin, List.getElem?_mem hmax, ?_⟩
  · unfold ImageStats
    rw [hfirst]
    exact hrun
  · intro s hsmem
    obtain ⟨j, hj⟩ := List.mem_iff_getElem?.1 hsmem
    have hjlt : j < img.pixel.length := by
      rcases List.getElem?_eq_some.1 hj with ⟨h, -⟩
      exact h
    exact hall j (by unfold Sized at hs; omega) s hj

/-- A new image holds only zeros. -/
theorem create_zero {w h m : Int} {c : Image} (hc : ImageCreate w h m = some c) :
    c.maxval = m ∧ ∀ v ∈ c.pixel, v = 0 := by
  unfold ImageCreate at hc
  by_cases hcond : 0 ≤ w ∧ 0 ≤ h ∧ (0 < m ∧ m ≤ (PixMax : Int))
  · rw [if_pos hcond] at hc
    have := Option.some.inj hc
    subst this
    exact ⟨rfl, fun v hv => List.eq_of_mem_replicate hv⟩
  · rw [if_neg hcond] at hc; simp at hc

/-- Function `ImageRotate` keeps every sample below the maxval. -/
theorem rotate_bounded {img : Image} (hwf : img.WF) (hb : SamplesBounded img) :
    ∃ r, ImageRotate img = some r ∧ SamplesBounded r := by
  obtain ⟨r, hr, -, -, -, hm, -⟩ := rotate_spec hwf
  refine ⟨r, hr, ?_⟩
  unfold ImageRotate at hr
  simp only [Option.bind_eq_bind] at hr
  obtain ⟨c, hc, hrun⟩ := Option.bind_eq_some.1 hr
  have hz := create_zero hc
  unfold SamplesBounded
  rw [hm]
  refine copy_nest_bounded img img.maxval hb (fun x _ => x) (fun _ y => y) (fun _ y => y)
    (fun x _ => img.width - 1 - x) img.width img.height c r hrun ?_
  intro v hv
  rw [hz.2 v hv]
  have := hwf.2.2.1.1
  omega

/-- Function `ImageMirror` keeps every sample below the maxval. -/
theorem mirror_bounded {img : Image} (hwf : img.WF) (hb : SamplesBounded img) :
    ∃ r, ImageMirror img = some r ∧ SamplesBounded r := by
  obtain ⟨r, hr, -, -, -, hm, -⟩ := mirror_spec hwf
  refine ⟨r, hr, ?_⟩
  unfold ImageMirror at hr
  simp only [Option.bind_eq_bind] at hr
  obtain ⟨c, hc, hrun⟩ := Option.bind_eq_some.1 hr
  have hz := create_zero hc
  unfold SamplesBounded
  rw [hm]
  refine copy_nest_bounded img img.maxval hb (fun x _ => x) (fun _ y => y)
    (fun x _ => img.width - 1 - x) (fun _ y => y) img.width img.height c r hrun ?_
  intro v hv
  rw [hz.2 v hv]
  have := hwf.2.2.1.1
  omega

/-- Function `ImageCrop` keeps every sample below the maxval. -/
theorem crop_bounded {img : Image} (hwf : img.WF) (hb : SamplesBounded img) {x y w h : Int}
    (hw : 0 ≤ w) (hh : 0 ≤ h) (hrect : ImageValidRect img x y w h = true) :
    ∃ r, ImageCrop img x y w h = some r ∧ SamplesBounded r := by
  obtain ⟨r, hr, -, -, -, hm, -⟩ := crop_spec hwf hw hh hrect
  refine ⟨r, hr, ?_⟩
  unfold ImageCrop at hr
  rw [if_pos hrect] at hr
  simp only [Option.bind_eq_bind] at hr
  obtain ⟨c, hc, hrun⟩ := Option.bind_eq_some.1 hr
  have hz := create_zero hc
  unfold SamplesBounded
  rw [hm]
  refine copy_nest_bounded img img.maxval hb (fun cx _ => x + cx) (fun _ cy => y + cy)
    (fun cx _ => cx) (fun _ cy => cy) w h c r hrun ?_
  intro v hv
  rw [hz.2 v hv]
  have := hwf.2.2.1.1
  omega

/-- C17: for a well-formed image with at least one pixel, `ImageStats` sets
`*min` and `*max` to the minimum and the maximum of all samples: both values
occur in the image, and every sample `s` satisfies `min <= s <= max`. -/
theorem stats_min_max (img : Image) (hwf : img.WF) (hpos : 1 ≤ img.width * img.height) :
    ∃ mn mx, ImageStats img = some (mn, mx) ∧ mn ∈ img.pixel ∧ mx ∈ img.pixel ∧
      ∀ s ∈ img.pixel, mn ≤ s ∧ s ≤ mx :=
  stats_spec img (wf_sized hwf) hpos

/-- Witness for C17 on the 2x2 image, whose first sample is its maximum. -/
theorem stats_min_max_witness :
    sample2x2.WF ∧ 1 ≤ sample2x2.width * sample2x2.height ∧
    ∃ mn mx, ImageStats sample2x2 = some (mn, mx) ∧ mn ∈ sample2x2.pixel ∧
      mx ∈ sample2x2.pixel ∧ ∀ s ∈ sample2x2.pixel, mn ≤ s ∧ s ≤ mx :=
  ⟨by unfold Image.WF; decide, by decide,
    stats_min_max sample2x2 (by unfold Image.WF; decide) (by decide)⟩

/-- C19: for a well-formed image and a threshold `t`, `ImageThreshold`
succeeds, keeps width, height and maxval, and at every valid position stores 0
if the previous sample was `< t` and the image's maxval otherwise. -/
theorem threshold_maps_samples (img : Image) (t : Nat) (hwf : img.WF) :
    ∃ r, ImageThreshold img t = some r ∧
      (r.width = img.width ∧ r.height = img.height ∧ r.maxval = img.maxval) ∧
      ∀ x y, ImageValidPos img x y = true →
        ∃ v v', ImageGetPixel img x y = some v ∧ ImageGetPixel r x y = some v' ∧
          (v' : Int) = if v < t then 0 else img.maxval := by
  refine ⟨_, threshold_spec img t (wf_sized hwf), ⟨rfl, rfl, rfl⟩, ?_⟩
  intro x y hv
  have hv2 : ImageValidPos { img with pixel :=
      (img.pixel.map fun (v : Nat) => ((if v < t then (0 : Int) else img.maxval) % 256).toNat) }
      x y = true := by
    simpa [ImageValidPos] using (validPos_iff img x y).1 hv
  have hget := getPixel_valid (wf_sized hwf) hv
  have hidx := getPixel_eq_index hv
  rw [hget] at hidx
  refine ⟨pix img x y, ((if pix img x y < t then (0 : Int) else img.maxval) % 256).toNat,
    hget, ?_, ?_⟩
  · rw [getPixel_eq_index hv2]
    simp only [List.getElem?_map, ← hidx, Option.map_some']
  · have hm := hwf.2.2.1
    split_ifs <;> omega

/-- Witness for C19: the threshold 25 on the 2x2 image. -/
theorem threshold_maps_samples_witness :
    sample2x2.WF ∧
    ∃ r, ImageThreshold sample2x2 25 = some r ∧
      (r.width = sample2x2.width ∧ r.height = sample2x2.height ∧
        r.maxval = sample2x2.maxval) ∧
      ∀ x y, ImageValidPos sample2x2 x y = true →
        ∃ v v', ImageGetPixel sample2x2 x y = some v ∧ ImageGetPixel r x y = some v' ∧
          (v' : Int) = if v < 25 then 0 else sample2x2.maxval :=
  ⟨by unfold Image.WF; decide, threshold_maps_samples sample2x2 25 (by unfold Image.WF; decide)⟩

/-- C20 (as amended): if every sample of a well-formed `img` is `<= maxval`,
the same holds for `img` after `ImageThreshold`, for the images returned by
`ImageRotate`, `ImageMirror` and `ImageCrop` (on a valid rectangle with
non-negative sides), and for `img` after `ImageNegative` when its maxval is
255. -/
theorem producers_keep_samples_bounded (img : Image) (hwf : img.WF)
    (hb : SamplesBounded img) :
    (∀ t, ∃ r, ImageThreshold img t = some r ∧ SamplesBounded r) ∧
    (∃ r, ImageRotate img = some r ∧ SamplesBounded r) ∧
    (∃ r, ImageMirror img = some r ∧ SamplesBounded r) ∧
    (∀ x y w h, 0 ≤ w → 0 ≤ h → ImageValidRect img x y w h = true →
      ∃ r, ImageCrop img x y w h = some r ∧ SamplesBounded r) ∧
    (img.maxval = 255 → ∃ r, ImageNegative img = some r ∧ SamplesBounded r) := by
  have hm := hwf.2.2.1
  refine ⟨?_, rotate_bounded hwf hb, mirror_bounded hwf hb,
    fun x y w h hw hh hrect => crop_bounded hwf hb hw hh hrect, ?_⟩
  · intro t
    refine ⟨_, threshold_spec img t (wf_sized hwf), ?_⟩
    intro v hv
    simp only [List.mem_map] at hv
    obtain ⟨u, -, rfl⟩ := hv
    simp only
    split_ifs <;> omega
  · intro h255
    refine ⟨_, negative_spec img (wf_sized hwf), ?_⟩
    intro v hv
    simp only [List.mem_map] at hv
    obtain ⟨u, -, rfl⟩ := hv
    simp only [h255, PixMax]
    omega

/-- Witness for C20 (as amended) on the 2x2 image of maxval 255. -/
theorem producers_keep_samples_bounded_witness :
    sample2x2.WF ∧ SamplesBounded sample2x2 ∧
    ((∀ t, ∃ r, ImageThreshold sample2x2 t = some r ∧ SamplesBounded r) ∧
    (∃ r, ImageRotate sample2x2 = some r ∧ SamplesBounded r) ∧
    (∃ r, ImageMirror sample2x2 = some r ∧ SamplesBounded r) ∧
    (∀ x y w h, 0 ≤ w → 0 ≤ h → ImageValidRect sample2x2 x y w h = true →
      ∃ r, ImageCrop sample2x2 x y w h = some r ∧ SamplesBounded r) ∧
    (sample2x2.maxval = 255 → ∃ r, ImageNegative sample2x2 = some r ∧ SamplesBounded r)) :=
  ⟨by unfold Image.WF; decide, by unfold SamplesBounded; decide,
    producers_keep_samples_bounded sample2x2 (by unfold Image.WF; decide)
      (by unfold SamplesBounded; decide)⟩

/-- C20 (as stated) fails for `ImageNegative` on an image whose maxval is less
than 255: the 1x1 image of maxval 100 holding 0 satisfies the invariant, and
`ImageNegative` stores `PixMax - 0 = 255`, which is greater than 100. -/
theorem negative_exceeds_maxval :
    black100.WF ∧ SamplesBounded black100 ∧
    ImageNegative black100 = some { black100 with pixel := [255] } ∧
    ¬ SamplesBounded { black100 with pixel := [255] } := by
  refine ⟨by unfold Image.WF; decide, by unfold SamplesBounded; decide, by decide,
    by unfold SamplesBounded; decide⟩

/-- The blur of C7 breaks the sample bound as well: on the 3x3 image of maxval
100 whose samples are all 10, `ImageBlur` with `dx = dy = 1` stores 168 at the
corners. -/
theorem blur_exceeds_maxval :
    dim3x3.WF ∧ SamplesBounded dim3x3 ∧
    ImageBlur dim3x3 1 1 =
      some { dim3x3 with pixel := [168, 122, 168, 122, 78, 122, 168, 122, 168] } ∧
    ¬ SamplesBounded { dim3x3 with pixel := [168, 122, 168, 122, 78, 122, 168, 122, 168] } := by
  refine ⟨by unfold Image.WF; decide, by unfold SamplesBounded; decide, by decide,
    by unfold SamplesBounded; decide⟩

/-! ## The blur with a one-pixel window -/

/-- With `dx = dy = 0` the window of a valid position `(x,y)` holds that
position alone: the accumulation yields the sample and the count 1. -/
theorem blur_window_zero {img : Image} (hs : Sized img) {x y : Int}
    (hv : ImageValidPos img x y = true) :
    forLe (y - 0) (y + 0) (fun cy acc =>
      forLe (x - 0) (x + 0) (fun cx (acc : Int × Int) =>
        if ImageValidPos img cx cy then do
          let v ← ImageGetPixel img cx cy
          some (acc.1 + (v : Int), acc.2 + 1)
        else some acc) acc) ((0 : Int), (0 : Int)) = some ((pix img x y : Int), 1) := by
  have h1 : (y + 0 + 1 - y).toNat = 1 := by omega
  have h2 : (x + 0 + 1 - x).toNat = 1 := by omega
  simp only [forLe, Int.sub_zero, h1, h2, forUp, hv, if_true, getPixel_valid hs hv,
    Option.bind_eq_bind, Option.some_bind, Int.zero_add]

/-- The source's mean expression returns the sample itself when the count is 1
and the sample is a byte. -/
theorem blur_mean_one {v : Nat} (hv : v < 256) :
    (if (1 : Int) > 0 then (Int.tdiv (2 * (v : Int) + 1) 2 * 1) % 256 else 0).toNat = v := by
  have h : Int.tdiv (2 * (v : Int) + 1) 2 = (2 * (v : Int) + 1) / 2 :=
    Int.tdiv_eq_ediv (by omega) (by omega)
  rw [if_pos (by omega), h]
  omega

/-- Function `ImageBlur` with `dx = dy = 0` returns the image itself, for a
well-formed image whose samples are bytes. -/
theorem blur_zero_spec {img : Image} (hwf : img.WF) (hbytes : SamplesAreBytes img) :
    ImageBlur img 0 0 = some img := by
  obtain ⟨hw, hh, hm, hlen⟩ := hwf
  obtain ⟨c, hc, hcw, hch, hcm, hcs⟩ := create_spec hw hh hm
  -- first loop nest: the temporary image receives every sample of `img`
  obtain ⟨b, hb, hbshape, hbpix, -⟩ := blit_spec c hcs img.width img.height hw hh
    (fun cx _ => cx) (fun _ cy => cy) (fun cx cy => pix img cx cy)
    (fun y x b => do
      let (sum, count) ← forLe (y - 0) (y + 0) (fun cy acc =>
        forLe (x - 0) (x + 0) (fun cx (acc : Int × Int) =>
          if ImageValidPos img cx cy then do
            let v ← ImageGetPixel img cx cy
            some (acc.1 + (v : Int), acc.2 + 1)
          else some acc) acc) ((0 : Int), (0 : Int))
      let meanValue : Int :=
        if count > 0 then (Int.tdiv (2 * sum + count) 2 * count) % 256 else 0
      ImageSetPixel b x y meanValue.toNat)
    (by
      intro cx cy s hcx hcy _ _
      have hv : ImageValidPos img cx cy = true := (validPos_iff _ _ _).2 ⟨hcx, hcy⟩
      have hbyte : pix img cx cy < 256 := hbytes _ (getPixel_mem (getPixel_valid hlen hv))
      have hwin := blur_window_zero hlen hv
      simp only [Option.bind_eq_bind] at hwin ⊢
      rw [hwin]
      simp only [Option.some_bind, blur_mean_one hbyte])
    (by
      intro cx cy hcx hcy
      simp only [validPos_iff, hcw, hch]; omega)
    (by intro cx cy cx' cy' _ _ _ _ h1 h2; simp only at h1 h2; omega)
  have hbs : Sized b := sameShape_sized hbshape hcs
  have hvb : ∀ cx cy, (0 ≤ cx ∧ cx < img.width) → (0 ≤ cy ∧ cy < img.height) →
      ImageValidPos b cx cy = true := by
    intro cx cy hcx hcy
    rw [validPos_iff, hbshape.1, hbshape.2.1, hcw, hch]; exact ⟨hcx, hcy⟩
  -- second loop nest: the samples are copied back
  obtain ⟨r, hr, hrshape, hrpix, -⟩ := blit_spec img hlen img.width img.height hw hh
    (fun cx _ => cx) (fun _ cy => cy) (fun cx cy => pix b cx cy)
    (fun y x im => do
      let v ← ImageGetPixel b x y
      ImageSetPixel im x y v)
    (by
      intro cx cy s hcx hcy _ _
      simp [getPixel_valid hbs (hvb cx cy hcx hcy)])
    (by
      intro cx cy hcx hcy
      simp only [validPos_iff]; omega)
    (by intro cx cy cx' cy' _ _ _ _ h1 h2; simp only at h1 h2; omega)
  have hri : r = img := by
    apply image_ext (sameShape_sized hrshape hlen) (by rw [hrshape.1]; exact hw) hrshape
    intro x y hv
    have hv' := (validPos_iff _ _ _).1 hv
    rw [hrshape.1, hrshape.2.1] at hv'
    have hvi : ImageValidPos img x y = true := (validPos_iff _ _ _).2 hv'
    have e1 := hrpix x y ⟨hv'.1, hv'.2⟩
    have e2 := hbpix x y ⟨hv'.1, hv'.2⟩
    simp only at e1 e2
    have e3 : pix b x y = pix img x y := by simp [pix, e2]
    rw [e1, e3, getPixel_valid hlen hvi]
  rw [hri] at hr
  unfold ImageBlur
  simp only [Option.bind_eq_bind]
  exact Option.bind_eq_some.2 ⟨c, hc, Option.bind_eq_some.2 ⟨b, hb, hr⟩⟩

/-! ## The blend at the ends of the alpha range -/

/-- With `alpha = 1` the blended value of two bytes is the second one. -/
theorem blend_value_one (p1 : Nat) {p2 : Nat} (h2 : p2 < 256) :
    castUint8 ((1 - 1) * (p1 : ℚ) + 1 * (p2 : ℚ) + 1 / 2) = some p2 :=
  castUint8_of_floor (by omega) (by norm_num) (by norm_num)

/-- With `alpha = 0` the blended value of two bytes is the first one. -/
theorem blend_value_zero {p1 : Nat} (p2 : Nat) (h1 : p1 < 256) :
    castUint8 ((1 - 0) * (p1 : ℚ) + 0 * (p2 : ℚ) + 1 / 2) = some p1 :=
  castUint8_of_floor (by omega) (by norm_num) (by norm_num)

/-- Function `ImageBlend` succeeds when every blended value converts to the
byte `f cx cy`; the footprint then holds those bytes and nothing else
changes. -/
theorem blend_spec {img1 img2 : Image} (h1 : img1.WF) (h2 : img2.WF) {x y : Int} (alpha : ℚ)
    (hrect : ImageValidRect img1 x y img2.width img2.height = true)
    (f : Int → Int → Nat)
    (hf : ∀ cx cy, ImageValidPos img2 cx cy = true →
      castUint8 ((1 - alpha) * (pix img1 (x + cx) (y + cy) : ℚ) +
        alpha * (pix img2 cx cy : ℚ) + 1 / 2) = some (f cx cy)) :
    ∃ r, ImageBlend img1 x y img2 alpha = some r ∧ SameShape r img1 ∧
      (∀ cx cy, ImageValidPos img2 cx cy = true →
        ImageGetPixel r (x + cx) (y + cy) = some (f cx cy)) ∧
      (∀ i j, ¬ ((x ≤ i ∧ i < x + img2.width) ∧ (y ≤ j ∧ j < y + img2.height)) →
        ImageGetPixel r i j = ImageGetPixel img1 i j) := by
  have hrect' := (validRect_iff _ _ _ _ _).1 hrect
  obtain ⟨r, hr, hshape, hwritten, hrest⟩ := blit_spec img1 (wf_sized h1) img2.width
    img2.height h2.1 h2.2.1
    (fun cx _ => x + cx) (fun _ cy => y + cy) f
    (fun cy cx (r : Image) => do
      let p1 ← ImageGetPixel r (x + cx) (y + cy)
      let p2 ← ImageGetPixel img2 cx cy
      let blendedValue ← castUint8 ((1 - alpha) * (p1 : ℚ) + alpha * (p2 : ℚ) + 1 / 2)
      ImageSetPixel r (x + cx) (y + cy) blendedValue)
    (by
      intro cx cy s hcx hcy _ hsame
      have hv2 : ImageValidPos img2 cx cy = true := (validPos_iff _ _ _).2 ⟨hcx, hcy⟩
      have hv1 : ImageValidPos img1 (x + cx) (y + cy) = true := by
        rw [validPos_iff]; omega
      simp only at hsame
      simp only [hsame, getPixel_valid (wf_sized h1) hv1, getPixel_valid (wf_sized h2) hv2,
        Option.bind_eq_bind, Option.some_bind, hf cx cy hv2])
    (by
      intro cx cy hcx hcy
      simp only [validPos_iff]; omega)
    (by intro cx cy cx' cy' _ _ _ _ h1 h2; simp only at h1 h2; omega)
  refine ⟨r, ?_, hshape, ?_, ?_⟩
  · simp only [ImageBlend, hrect, if_true]; exact hr
  · intro cx cy hv
    have hv' := (validPos_iff _ _ _).1 hv
    exact hwritten cx cy ⟨hv'.1, hv'.2⟩
  · intro i j hout
    apply hrest
    intro a b hab he
    simp only at he
    omega

/-! ## Search safety, the zero-radius blur and the end points of the blend -/

/-- On every pair of `EmptySearch` the search calls `ImageMatchSubImage` at the
anchor `(0,0)`, which is not a valid position of `img1`, and aborts. -/
theorem locate_aborts_on_empty_search {img1 img2 : Image} (px py : Int)
    (he : EmptySearch img1 img2) :
    InSearchRange img1 img2 0 0 ∧ ImageValidPos img1 0 0 = false ∧
    ImageMatchSubImage img1 0 0 img2 = none ∧
    ImageLocateSubImage img1 px py img2 = none := by
  obtain ⟨-, hemp1, hw, hh⟩ := he
  have hr00 : InSearchRange img1 img2 0 0 := by unfold InSearchRange; omega
  have hnv : ¬ ImageValidPos img1 0 0 = true := by
    rw [validPos_iff]; omega
  have hm00 : ImageMatchSubImage img1 0 0 img2 = none := by
    simp [ImageMatchSubImage, hnv]
  refine ⟨hr00, by simpa using hnv, hm00, ?_⟩
  rcases locate_cases img1 px py img2 with ⟨-, hall⟩ | ⟨x0, y0, hr0, hearly, hres⟩
  · have := hall 0 0 hr00
    rw [hm00] at this; simp at this
  · rcases scan_trichotomy 0 0 x0 y0 with hb | hb | ⟨hx, hy⟩
    · have := hearly 0 0 hr00 hb
      rw [hm00] at this; simp at this
    · unfold ScannedBefore at hb; unfold InSearchRange at hr0; omega
    · subst hx hy
      rcases hres with ⟨h, -⟩ | ⟨-, h⟩
      · rw [hm00] at h; simp at h
      · exact h

/-- C21: the search range is not safe on empty images.  On two 0x0 images,
and on the 3x0 image searched for the 2x0 image, the anchor `(0,0)` lies in
the range of the two loops of `ImageLocateSubImage` but is not a valid position
of `img1`: the call of `ImageMatchSubImage` there violates its assertion
`ImageValidPos(img1,x,y)`, and the search aborts. -/
theorem locate_anchor_outside_image :
    (emptyImage.WF ∧ InSearchRange emptyImage emptyImage 0 0 ∧
      ImageValidPos emptyImage 0 0 = false ∧
      ImageMatchSubImage emptyImage 0 0 emptyImage = none ∧
      ImageLocateSubImage emptyImage 7 7 emptyImage = none) ∧
    (strip3x0.WF ∧ strip2x0.WF ∧ InSearchRange strip3x0 strip2x0 0 0 ∧
      ImageValidPos strip3x0 0 0 = false ∧
      ImageMatchSubImage strip3x0 0 0 strip2x0 = none ∧
      ImageLocateSubImage strip3x0 7 7 strip2x0 = none) := by
  refine ⟨⟨by unfold Image.WF; decide, by unfold InSearchRange; decide, by decide, by decide,
    by decide⟩, ⟨by unfold Image.WF; decide, by unfold Image.WF; decide,
    by unfold InSearchRange; decide, by decide, by decide, by decide⟩⟩

/-- C22: `ImageBlur` with a zero-radius window is the identity.  For a
well-formed image, whose samples are bytes, `ImageBlur(img,0,0)` succeeds and
leaves every sample, the width, the height and the maxval as they were. -/
theorem blur_zero_radius_identity (img : Image) (hwf : img.WF)
    (hbytes : SamplesAreBytes img) :
    ImageBlur img 0 0 = some img ∧
    ∀ r, ImageBlur img 0 0 = some r →
      (r.width = img.width ∧ r.height = img.height ∧ r.maxval = img.maxval) ∧
      ∀ x y, ImageGetPixel r x y = ImageGetPixel img x y := by
  have h := blur_zero_spec hwf hbytes
  refine ⟨h, ?_⟩
  intro r hr
  rw [h] at hr
  have := Option.some.inj hr
  subst this
  exact ⟨⟨rfl, rfl, rfl⟩, fun _ _ => rfl⟩

/-- Witness for C22 on the 3x3 image. -/
theorem blur_zero_radius_identity_witness :
    sample3x3.WF ∧ SamplesAreBytes sample3x3 ∧
    (ImageBlur sample3x3 0 0 = some sample3x3 ∧
    ∀ r, ImageBlur sample3x3 0 0 = some r →
      (r.width = sample3x3.width ∧ r.height = sample3x3.height ∧
        r.maxval = sample3x3.maxval) ∧
      ∀ x y, ImageGetPixel r x y = ImageGetPixel sample3x3 x y) :=
  ⟨by unfold Image.WF; decide, by unfold SamplesAreBytes; decide,
    blur_zero_radius_identity sample3x3 (by unfold Image.WF; decide)
      (by unfold SamplesAreBytes; decide)⟩

/-- C23: for well-formed images of bytes with `img2` fitting inside `img1` at
`(x,y)`, `ImageBlend` with `alpha = 1` leaves `img1` equal to the result of
`ImagePaste(img1,x,y,img2)`, and `ImageBlend` with `alpha = 0` leaves `img1`
unchanged. -/
theorem blend_ends_of_alpha_range (img1 img2 : Image) (x y : Int) (h1 : img1.WF)
    (h2 : img2.WF) (hb1 : SamplesAreBytes img1) (hb2 : SamplesAreBytes img2)
    (hrect : ImageValidRect img1 x y img2.width img2.height = true) :
    (∃ r, ImagePaste img1 x y img2 = some r ∧ ImageBlend img1 x y img2 1 = some r) ∧
    ImageBlend img1 x y img2 0 = some img1 := by
  have hrect' := (validRect_iff _ _ _ _ _).1 hrect
  have hv1 : ∀ cx cy, ImageValidPos img2 cx cy = true →
      ImageValidPos img1 (x + cx) (y + cy) = true := by
    intro cx cy hv
    have hv' := (validPos_iff _ _ _).1 hv
    rw [validPos_iff]; omega
  obtain ⟨rp, hrp, hpshape, hpin, hpout⟩ := paste_spec h1 h2 hrect
  obtain ⟨rb, hrb, hbshape, hbin, hbout⟩ := blend_spec h1 h2 1 hrect
    (fun cx cy => pix img2 cx cy)
    (fun cx cy hv => blend_value_one _
      (hb2 _ (getPixel_mem (getPixel_valid (wf_sized h2) hv))))
  obtain ⟨r0, hr0, h0shape, h0in, h0out⟩ := blend_spec h1 h2 0 hrect
    (fun cx cy => pix img1 (x + cx) (y + cy))
    (fun cx cy hv => blend_value_zero _
      (hb1 _ (getPixel_mem (getPixel_valid (wf_sized h1) (hv1 cx cy hv)))))
  constructor
  · refine ⟨rp, hrp, ?_⟩
    rw [hrb]
    congr 1
    have hshape : SameShape rb rp :=
      ⟨hbshape.1.trans hpshape.1.symm, hbshape.2.1.trans hpshape.2.1.symm,
        hbshape.2.2.1.trans hpshape.2.2.1.symm, hbshape.2.2.2.trans hpshape.2.2.2.symm⟩
    apply image_ext (sameShape_sized hbshape (wf_sized h1)) (by rw [hbshape.1]; exact h1.1)
      hshape
    intro i j _
    by_cases hfoot : (x ≤ i ∧ i < x + img2.width) ∧ (y ≤ j ∧ j < y + img2.height)
    · have hv : ImageValidPos img2 (i - x) (j - y) = true := by rw [validPos_iff]; omega
      have e1 := hbin (i - x) (j - y) hv
      have e2 := hpin (i - x) (j - y) hv
      have hi : x + (i - x) = i := by ring
      have hj : y + (j - y) = j := by ring
      rw [hi, hj] at e1 e2
      rw [e1, e2, getPixel_valid (wf_sized h2) hv]
    · rw [hbout i j hfoot, hpout i j hfoot]
  · rw [hr0]
    congr 1
    apply image_ext (sameShape_sized h0shape (wf_sized h1)) (by rw [h0shape.1]; exact h1.1)
      h0shape
    intro i j _
    by_cases hfoot : (x ≤ i ∧ i < x + img2.width) ∧ (y ≤ j ∧ j < y + img2.height)
    · have hv : ImageValidPos img2 (i - x) (j - y) = true := by rw [validPos_iff]; omega
      have e1 := h0in (i - x) (j - y) hv
      have hi : x + (i - x) = i := by ring
      have hj : y + (j - y) = j := by ring
      simp only [hi, hj] at e1
      rw [e1]
      have := getPixel_valid (wf_sized h1) (hv1 (i - x) (j - y) hv)
      rw [hi, hj] at this
      exact this.symm
    · exact h0out i j hfoot

/-- Witness for C23: blending the 2x2 image into the 3x3 image at `(1,0)`. -/
theorem blend_ends_of_alpha_range_witness :
    sample3x3.WF ∧ sample2x2.WF ∧ SamplesAreBytes sample3x3 ∧ SamplesAreBytes sample2x2 ∧
    ImageValidRect sample3x3 1 0 sample2x2.width sample2x2.height = true ∧
    ((∃ r, ImagePaste sample3x3 1 0 sample2x2 = some r ∧
      ImageBlend sample3x3 1 0 sample2x2 1 = some r) ∧
    ImageBlend sample3x3 1 0 sample2x2 0 = some sample3x3) :=
  ⟨by unfold Image.WF; decide, by unfold Image.WF; decide,
    by unfold SamplesAreBytes; decide, by unfold SamplesAreBytes; decide, by decide,
    blend_ends_of_alpha_range sample3x3 sample2x2 1 0 (by unfold Image.WF; decide)
      (by unfold Image.WF; decide) (by unfold SamplesAreBytes; decide)
      (by unfold SamplesAreBytes; decide) (by decide)⟩

end Image8bit
